import Mathlib

/-!
# EcoSort backend — verification of the core components

Shallow embedding of the core logic of `src/Backend/main.py` (Smart Waste
Segregation and Recycling System backend):

* `SimpleJWT.encode` / `SimpleJWT.decode` — the from-scratch signed-token
  scheme (JSON serialization, base64url without padding, HMAC-SHA256),
  together with `create_access_token` and `SecurityBearer.verify_jwt`;
* `WasteDatabase` — in-memory bin store with derived status
  (`_calculate_bin_status`) and alert generation (`_generate_alerts`);
* `NotificationManager.check_and_notify` — the outbound notification path;
* `RateLimiter.is_allowed` — per-identifier sliding-window admission.

Modelling conventions:

* Python `float` fill levels are modelled as rationals (`ℚ`);
  epoch timestamps occurring in tokens are modelled as integers
  (epoch seconds), rate-limiter clock readings as rationals.
* Python `dict`s (JSON objects, the bin map, the rate-limiter map) are
  modelled as association lists in insertion order; assignment to an
  existing key replaces the value in place, a new key is appended —
  exactly the observable behaviour of an insertion-ordered `dict`.
* JSON texts are manipulated as `List Char`; `json.dumps` with its default
  `ensure_ascii=True` produces pure-ASCII output, so bytes and characters
  of serialized JSON correspond one to one via `Char.toNat`.
-/

/-! ## JSON values and Python-dict helpers -/

/-- JSON values as they occur in token payloads: strings, integers
(modelling the numeric timestamps), booleans and null.  Payload objects are
association lists of string keys in insertion order. -/
inductive JVal where
  | jstr : String → JVal
  | jint : Int → JVal
  | jbool : Bool → JVal
  | jnull : JVal
deriving DecidableEq

/-- A claims mapping / JSON object: keys with values, in insertion order. -/
abbrev Claims := List (String × JVal)

/-- `d[k] = v` on an insertion-ordered dict: if `k` is present the value is
replaced in place, otherwise the pair is appended at the end. -/
def dictUpdate {α : Type} (l : List (String × α)) (k : String) (v : α) :
    List (String × α) :=
  if l.any (fun p => p.1 = k) then
    l.map (fun p => if p.1 = k then (k, v) else p)
  else
    l ++ [(k, v)]

/-- `d.get(k)` on an insertion-ordered dict; with duplicate keys (possible
after `json.loads` of a forged text, where the last occurrence wins) lookup
returns the value of the last matching key. -/
def pyLookup {α : Type} (l : List (String × α)) (k : String) : Option α :=
  (l.reverse.find? (fun p => p.1 = k)).map (fun p => p.2)

/-! ## JSON serialization (model of `json.dumps` with default options) -/

/-- Hex digit characters, lowercase, as emitted by `json.dumps` escapes. -/
def hexChars : List Char := "0123456789abcdef".data

/-- The `i`-th lowercase hex digit. -/
def hexChar (i : Nat) : Char := hexChars.getD i '0'

/-- Four-digit lowercase hex rendering of `n < 0x10000`, as in `\uXXXX`. -/
def hex4 (n : Nat) : List Char :=
  [hexChar (n / 4096 % 16), hexChar (n / 256 % 16),
   hexChar (n / 16 % 16), hexChar (n % 16)]

/-- Escape of a single character inside a JSON string literal, following
`json.dumps` with `ensure_ascii=True`: `"` and `\` get a backslash escape,
the common control characters use their short escapes, every other
character below `0x20` or at or above `0x7f` is emitted as `\uXXXX`
(a surrogate pair for code points at or above `0x10000`), and the
remaining printable ASCII passes through unchanged. -/
def escapeChar (c : Char) : List Char :=
  if c = '"' then ['\\', '"']
  else if c = '\\' then ['\\', '\\']
  else if c = '\x08' then ['\\', 'b']
  else if c = '\x09' then ['\\', 't']
  else if c = '\x0a' then ['\\', 'n']
  else if c = '\x0c' then ['\\', 'f']
  else if c = '\x0d' then ['\\', 'r']
  else if c.toNat < 0x20 ∨ 0x7f ≤ c.toNat then
    if c.toNat < 0x10000 then
      '\\' :: 'u' :: hex4 c.toNat
    else
      '\\' :: 'u' :: hex4 (0xd800 + (c.toNat - 0x10000) / 0x400) ++
      ('\\' :: 'u' :: hex4 (0xdc00 + (c.toNat - 0x10000) % 0x400))
  else [c]

/-- JSON string literal: quote, escaped characters, quote. -/
def dumpsString (s : String) : List Char :=
  '"' :: (s.data.map escapeChar).flatten ++ ['"']

/-- Decimal digits of a natural number, most significant first; the fuel
argument (any bound on the value, consumed once per digit) keeps the
recursion structural. -/
def natCharsAux : Nat → Nat → List Char
  | 0, n => [hexChar n]
  | fuel + 1, n =>
      if n < 10 then [hexChar n]
      else natCharsAux fuel (n / 10) ++ [hexChar (n % 10)]

/-- Decimal digits of a natural number, most significant first. -/
def natChars (n : Nat) : List Char := natCharsAux n n

/-- Decimal rendering of an integer (model of `json.dumps` on the numeric
claim values, with timestamps modelled as integer epoch seconds). -/
def intChars (n : Int) : List Char :=
  if n < 0 then '-' :: natChars n.natAbs else natChars n.natAbs

/-- Serialization of a single JSON value. -/
def dumpsVal : JVal → List Char
  | .jstr s => dumpsString s
  | .jint n => intChars n
  | .jbool true => "true".data
  | .jbool false => "false".data
  | .jnull => "null".data

/-- Serialization of the members of a JSON object, separated by `", "`
(the `json.dumps` default item separator). -/
def dumpsMembers : Claims → List Char
  | [] => []
  | [(k, v)] => dumpsString k ++ ':' :: ' ' :: dumpsVal v
  | (k, v) :: rest =>
      dumpsString k ++ ':' :: ' ' :: dumpsVal v ++ ',' :: ' ' :: dumpsMembers rest

/-- `json.dumps` of an object: members wrapped in braces. -/
def dumpsObj (l : Claims) : List Char :=
  Char.ofNat 123 :: dumpsMembers l ++ [Char.ofNat 125]

/-! ## base64url (model of `base64.urlsafe_b64encode` / `..._b64decode`) -/

/-- The urlsafe base64 alphabet. -/
def b64Alphabet : List Char :=
  "ABCDEFGHIJKLMNOPQRSTUVWXYZabcdefghijklmnopqrstuvwxyz0123456789-_".data

/-- Character for a 6-bit group. -/
def b64Char (n : Nat) : Char := b64Alphabet.getD n 'A'

/-- Index of a character in the urlsafe alphabet, if any. -/
def b64Val (c : Char) : Option Nat := b64Alphabet.findIdx? (fun d => d = c)

/-- `base64.urlsafe_b64encode` followed by `.rstrip('=')`: bytes are taken
three at a time into four alphabet characters, the final group of one or
two bytes yields two or three characters and the padding `=` signs are
stripped. -/
def b64Encode : List Nat → List Char
  | [] => []
  | [a] => [b64Char (a / 4), b64Char (a % 4 * 16)]
  | [a, b] => [b64Char (a / 4), b64Char (a % 4 * 16 + b / 16), b64Char (b % 16 * 4)]
  | a :: b :: c :: rest =>
      b64Char (a / 4) :: b64Char (a % 4 * 16 + b / 16) ::
      b64Char (b % 16 * 4 + c / 64) :: b64Char (c % 64) :: b64Encode rest

/-- Reassemble bytes from 6-bit groups; a leftover group of one character
cannot occur in valid base64 and is rejected, spare low bits of a final
partial group are discarded as `binascii` does. -/
def b64DecodeVals : List Nat → Option (List Nat)
  | [] => some []
  | [_] => none
  | [a, b] => some [a * 4 + b / 16]
  | [a, b, c] => some [a * 4 + b / 16, b % 16 * 16 + c / 4]
  | a :: b :: c :: d :: rest =>
      (b64DecodeVals rest).map
        (fun r => (a * 4 + b / 16) :: (b % 16 * 16 + c / 4) :: (c % 4 * 64 + d) :: r)

/-- Drop trailing `=` padding characters. -/
def stripPad (l : List Char) : List Char :=
  (l.reverse.dropWhile (fun c => c = '=')).reverse

/-- Model of `base64.urlsafe_b64decode` as used in `SimpleJWT.decode`
(the call site re-appends `'=='`, and `binascii` tolerates excess padding):
trailing padding is stripped, every remaining character must belong to the
urlsafe alphabet, and the 6-bit groups are reassembled into bytes. -/
def b64Decode (l : List Char) : Option (List Nat) :=
  ((stripPad l).mapM b64Val).bind b64DecodeVals

/-! ## Token string helpers -/

/-- Model of `str.split('.')`. -/
def splitOnDot : List Char → List (List Char)
  | [] => [[]]
  | c :: rest =>
      if c = '.' then [] :: splitOnDot rest
      else
        match splitOnDot rest with
        | [] => [[c]]
        | g :: gs => (c :: g) :: gs

/-! ## JSON parsing (model of `json.loads` on the texts produced above) -/

/-- Value of a decimal digit character. -/
def digitVal (c : Char) : Option Nat :=
  if '0' ≤ c ∧ c ≤ '9' then some (c.toNat - 48) else none

/-- Value of a hex digit character, either case. -/
def hexVal (c : Char) : Option Nat :=
  if '0' ≤ c ∧ c ≤ '9' then some (c.toNat - 48)
  else if 'a' ≤ c ∧ c ≤ 'f' then some (c.toNat - 87)
  else if 'A' ≤ c ∧ c ≤ 'F' then some (c.toNat - 55)
  else none

/-- Hex value of four hex digit characters. -/
def readHex4 : List Char → Option (Nat × List Char)
  | h1 :: h2 :: h3 :: h4 :: rest =>
      match hexVal h1, hexVal h2, hexVal h3, hexVal h4 with
      | some x1, some x2, some x3, some x4 =>
          some (x1 * 4096 + x2 * 256 + x3 * 16 + x4, rest)
      | _, _, _, _ => none
  | _ => none

/-- Resolve the four (or, for a surrogate pair, ten) characters following
`\u`: a high surrogate must be followed by `\u` and a low surrogate and
the pair is recombined; a lone surrogate escape is rejected (Lean
characters cannot carry one; the serializer never emits one). -/
def readUnicodeEscape (l : List Char) : Option (Char × List Char) :=
  match readHex4 l with
  | none => none
  | some (n, rest) =>
      if 0xd800 ≤ n ∧ n < 0xdc00 then
        match rest with
        | b1 :: b2 :: rest2 =>
            if b1 = '\\' ∧ b2 = 'u' then
              match readHex4 rest2 with
              | some (m, rest3) =>
                  if 0xdc00 ≤ m ∧ m < 0xe000 then
                    some (Char.ofNat (0x10000 + (n - 0xd800) * 0x400 + (m - 0xdc00)), rest3)
                  else none
              | none => none
            else none
        | _ => none
      else if 0xdc00 ≤ n ∧ n < 0xe000 then none
      else some (Char.ofNat n, rest)

/-- The character denoted by a single-character backslash escape. -/
def escCharOf (e : Char) : Option Char :=
  if e = '"' then some '"'
  else if e = '\\' then some '\\'
  else if e = '/' then some '/'
  else if e = 'b' then some '\x08'
  else if e = 't' then some '\x09'
  else if e = 'n' then some '\x0a'
  else if e = 'f' then some '\x0c'
  else if e = 'r' then some '\x0d'
  else none

/-- Body of a JSON string literal after the opening quote: characters are
accumulated (in reverse) until the closing quote; backslash escapes and
`\uXXXX` sequences are resolved, raw control characters are rejected as in
strict-mode `json.loads`.  The fuel argument (any bound on the input
length, consumed once per resolved character) keeps the recursion
structural. -/
def parseStringBody : Nat → List Char → List Char → Option (String × List Char)
  | 0, _, _ => none
  | _ + 1, _, [] => none
  | fuel + 1, acc, c :: rest =>
      if c = '"' then some (String.mk acc.reverse, rest)
      else if c = '\\' then
        match rest with
        | [] => none
        | e :: rest2 =>
            if e = 'u' then
              match readUnicodeEscape rest2 with
              | some (d, rest3) => parseStringBody fuel (d :: acc) rest3
              | none => none
            else
              match escCharOf e with
              | some d => parseStringBody fuel (d :: acc) rest2
              | none => none
      else if c.toNat < 0x20 then none
      else parseStringBody fuel (c :: acc) rest

/-- A JSON string token including its opening quote. -/
def parseStringTok : List Char → Option (String × List Char)
  | c :: rest => if c = '"' then parseStringBody (rest.length + 1) [] rest else none
  | [] => none

/-- Consume a maximal run of decimal digits, accumulating their value. -/
def parseNatAux (acc : Nat) : List Char → Nat × List Char
  | [] => (acc, [])
  | c :: rest =>
      match digitVal c with
      | some d => parseNatAux (acc * 10 + d) rest
      | none => (acc, c :: rest)

/-- An integer literal: optional minus sign followed by at least one digit
(the only numeric shape the serializer above emits). -/
def parseIntTok : List Char → Option (Int × List Char)
  | [] => none
  | c :: rest =>
      if c = '-' then
        match rest with
        | [] => none
        | d :: rest2 =>
            match digitVal d with
            | some v =>
                let p := parseNatAux v rest2
                some (-(p.1 : Int), p.2)
            | none => none
      else
        match digitVal c with
        | some v =>
            let p := parseNatAux v rest
            some ((p.1 : Int), p.2)
        | none => none

/-- A single JSON value of the shapes the serializer emits: string,
`true` / `false` / `null`, or integer literal. -/
def parseVal (l : List Char) : Option (JVal × List Char) :=
  match l with
  | [] => none
  | c :: rest =>
      if c = '"' then
        (parseStringBody (rest.length + 1) [] rest).map (fun p => (JVal.jstr p.1, p.2))
      else if c = 't' then
        match rest with
        | 'r' :: 'u' :: 'e' :: r => some (.jbool true, r)
        | _ => none
      else if c = 'f' then
        match rest with
        | 'a' :: 'l' :: 's' :: 'e' :: r => some (.jbool false, r)
        | _ => none
      else if c = 'n' then
        match rest with
        | 'u' :: 'l' :: 'l' :: r => some (.jnull, r)
        | _ => none
      else (parseIntTok l).map (fun p => (JVal.jint p.1, p.2))

def parseMembersAux : Nat → Claims → List Char → Option (Claims × List Char)
  | 0, _, _ => none
  | fuel + 1, acc, l =>
      match parseStringTok l with
      | none => none
      | some (k, l1) =>
          match l1 with
          | c1 :: c2 :: l2 =>
              if c1 = ':' ∧ c2 = ' ' then
                match parseVal l2 with
                | none => none
                | some (v, l3) =>
                    match l3 with
                    | [] => none
                    | rb :: l4 =>
                        if rb = ',' then
                          match l4 with
                          | [] => none
                          | sp :: l5 =>
                              if sp = ' ' then parseMembersAux fuel ((k, v) :: acc) l5
                              else none
                        else if rb = Char.ofNat 125 then
                          some (((k, v) :: acc).reverse, l4)
                        else none
              else none
          | _ => none

/-- Model of `json.loads` on payload texts: a full-input top-level object.
(`json.loads` also accepts non-object documents and surrounding
whitespace; the serializer in `SimpleJWT.encode` never produces those, and
on such inputs the model reports failure where the Python code would go on
to fail the subsequent dict operations.) -/
def json_loads (l : List Char) : Option Claims :=
  match l with
  | [] => none
  | c :: rest =>
      if c = Char.ofNat 123 then
        match rest with
        | [] => none
        | d :: rest2 =>
            if d = Char.ofNat 125 then
              if rest2 = [] then some [] else none
            else
              match parseMembersAux (rest.length + 1) [] rest with
              | some (m, []) => some m
              | _ => none
      else none

/-! ## Byte-level text codecs -/

/-- UTF-8 bytes of one character. -/
def utf8Char (c : Char) : List Nat :=
  let n := c.toNat
  if n < 0x80 then [n]
  else if n < 0x800 then [0xc0 + n / 64, 0x80 + n % 64]
  else if n < 0x10000 then [0xe0 + n / 4096, 0x80 + n / 64 % 64, 0x80 + n % 64]
  else [0xf0 + n / 0x40000, 0x80 + n / 4096 % 64, 0x80 + n / 64 % 64, 0x80 + n % 64]

/-- UTF-8 encoding of a character list (model of `str.encode()`). -/
def utf8EncodeL (l : List Char) : List Nat := (l.map utf8Char).flatten

/-- Model of `bytes.decode()` restricted to ASCII, which covers every text
this backend decodes (serialized JSON is pure ASCII under
`ensure_ascii=True`); a non-ASCII byte makes the model fail where Python
would continue a multi-byte sequence — no such byte string reaches this
point on the paths under verification. -/
def asciiDecode (bytes : List Nat) : Option (List Char) :=
  bytes.mapM (fun b => if b < 128 then some (Char.ofNat b) else none)

/-! ## SHA-256 and HMAC (model of `hashlib.sha256` / `hmac.new(...).digest()`) -/

/-- Truncation to a 32-bit word. -/
def w32 (n : Nat) : Nat := n % 4294967296

/-- Right rotation of a 32-bit word by `k` bits. -/
def rotr (k n : Nat) : Nat := w32 (n / 2 ^ k + n % 2 ^ k * 2 ^ (32 - k))

/-- Logical right shift. -/
def shr (k n : Nat) : Nat := n / 2 ^ k

/-- SHA-256 small sigma 0. -/
def ssig0 (n : Nat) : Nat := rotr 7 n ^^^ rotr 18 n ^^^ shr 3 n

/-- SHA-256 small sigma 1. -/
def ssig1 (n : Nat) : Nat := rotr 17 n ^^^ rotr 19 n ^^^ shr 10 n

/-- SHA-256 big sigma 0. -/
def bsig0 (n : Nat) : Nat := rotr 2 n ^^^ rotr 13 n ^^^ rotr 22 n

/-- SHA-256 big sigma 1. -/
def bsig1 (n : Nat) : Nat := rotr 6 n ^^^ rotr 11 n ^^^ rotr 25 n

/-- SHA-256 choice function (bitwise `e ? f : g`). -/
def chWord (e f g : Nat) : Nat := (e &&& f) ^^^ ((e ^^^ 0xffffffff) &&& g)

/-- SHA-256 majority function. -/
def majWord (a b c : Nat) : Nat := (a &&& b) ^^^ (a &&& c) ^^^ (b &&& c)

/-- The 64 SHA-256 round constants. -/
def sha256K : List Nat :=
  [1116352408, 1899447441, 3049323471, 3921009573, 961987163,
   1508970993, 2453635748, 2870763221, 3624381080, 310598401,
   607225278, 1426881987, 1925078388, 2162078206, 2614888103,
   3248222580, 3835390401, 4022224774, 264347078, 604807628,
   770255983, 1249150122, 1555081692, 1996064986, 2554220882,
   2821834349, 2952996808, 3210313671, 3336571891, 3584528711,
   113926993, 338241895, 666307205, 773529912, 1294757372,
   1396182291, 1695183700, 1986661051, 2177026350, 2456956037,
   2730485921, 2820302411, 3259730800, 3345764771, 3516065817,
   3600352804, 4094571909, 275423344, 430227734, 506948616,
   659060556, 883997877, 958139571, 1322822218, 1537002063,
   1747873779, 1955562222, 2024104815, 2227730452, 2361852424,
   2428436474, 2756734187, 3204031479, 3329325298]

/-- The SHA-256 initial hash value. -/
def sha256H0 : List Nat :=
  [1779033703, 3144134277, 1013904242, 2773480762,
   1359893119, 2600822924, 528734635, 1541459225]

/-- Big-endian 8-byte rendering of a length-in-bits field. -/
def be64 (n : Nat) : List Nat :=
  [n / 2 ^ 56 % 256, n / 2 ^ 48 % 256, n / 2 ^ 40 % 256, n / 2 ^ 32 % 256,
   n / 2 ^ 24 % 256, n / 2 ^ 16 % 256, n / 2 ^ 8 % 256, n % 256]

/-- Big-endian 4-byte rendering of a 32-bit word. -/
def be32 (n : Nat) : List Nat :=
  [n / 2 ^ 24 % 256, n / 2 ^ 16 % 256, n / 2 ^ 8 % 256, n % 256]

/-- Merkle–Damgård padding: a `0x80` byte, zeros up to 56 mod 64, and the
message length in bits as eight big-endian bytes. -/
def sha256Pad (msg : List Nat) : List Nat :=
  msg ++ 0x80 :: List.replicate ((119 - msg.length % 64) % 64) 0 ++
    be64 (msg.length * 8)

/-- Split a byte list into 64-byte blocks; the fuel argument (any bound on
the list length, consumed once per block) keeps the recursion structural. -/
def chunks64Aux : Nat → List Nat → List (List Nat)
  | _, [] => []
  | 0, _ :: _ => []
  | fuel + 1, a :: l => ((a :: l).take 64) :: chunks64Aux fuel ((a :: l).drop 64)

/-- Split a byte list into 64-byte blocks. -/
def chunks64 (l : List Nat) : List (List Nat) := chunks64Aux l.length l

/-- Big-endian 32-bit words of a block. -/
def toWords : List Nat → List Nat
  | a :: b :: c :: d :: rest =>
      (a * 2 ^ 24 + b * 2 ^ 16 + c * 2 ^ 8 + d) :: toWords rest
  | _ => []

/-- Message-schedule extension: append `k` further words, each derived
from the words 2, 7, 15 and 16 places back. -/
def extendW (ws : List Nat) : Nat → List Nat
  | 0 => ws
  | k + 1 =>
      let i := ws.length
      extendW
        (ws ++ [w32 (ssig1 (ws.getD (i - 2) 0) + ws.getD (i - 7) 0 +
                     ssig0 (ws.getD (i - 15) 0) + ws.getD (i - 16) 0)])
        k

/-- The eight working registers of the compression function. -/
structure Sha256Regs where
  ra : Nat
  rb : Nat
  rc : Nat
  rd : Nat
  re : Nat
  rf : Nat
  rg : Nat
  rh : Nat
deriving DecidableEq

/-- One compression round on the working registers, consuming one round
constant and one schedule word. -/
def sha256Round (st : Sha256Regs) (kw : Nat × Nat) : Sha256Regs :=
  let t1 := w32 (st.rh + bsig1 st.re + chWord st.re st.rf st.rg + kw.1 + kw.2)
  let t2 := w32 (bsig0 st.ra + majWord st.ra st.rb st.rc)
  { ra := w32 (t1 + t2), rb := st.ra, rc := st.rb, rd := st.rc,
    re := w32 (st.rd + t1), rf := st.re, rg := st.rf, rh := st.rg }

/-- Compression of one 64-byte block into the running hash state. -/
def sha256Compress (hs : List Nat) (block : List Nat) : List Nat :=
  let ws := extendW (toWords block) 48
  let st0 : Sha256Regs :=
    ⟨hs.getD 0 0, hs.getD 1 0, hs.getD 2 0, hs.getD 3 0,
     hs.getD 4 0, hs.getD 5 0, hs.getD 6 0, hs.getD 7 0⟩
  let st := (sha256K.zip ws).foldl sha256Round st0
  [w32 (hs.getD 0 0 + st.ra), w32 (hs.getD 1 0 + st.rb),
   w32 (hs.getD 2 0 + st.rc), w32 (hs.getD 3 0 + st.rd),
   w32 (hs.getD 4 0 + st.re), w32 (hs.getD 5 0 + st.rf),
   w32 (hs.getD 6 0 + st.rg), w32 (hs.getD 7 0 + st.rh)]

/-- SHA-256 digest of a byte list. -/
def sha256 (msg : List Nat) : List Nat :=
  (((chunks64 (sha256Pad msg)).foldl sha256Compress sha256H0).map be32).flatten

/-- HMAC-SHA256 (block size 64): the key is hashed if overlong, zero-padded
to the block size, and combined with the inner/outer pad constants. -/
def hmacSha256 (key msg : List Nat) : List Nat :=
  let k0 := if 64 < key.length then sha256 key else key
  let k1 := k0 ++ List.replicate (64 - k0.length) 0
  sha256 ((k1.map (fun b => b ^^^ 0x5c)) ++
          sha256 ((k1.map (fun b => b ^^^ 0x36)) ++ msg))

/-! ## SimpleJWT (`SimpleJWT.encode` / `SimpleJWT.decode`) -/

namespace SimpleJWT

/-- The fixed JWT header object `{"alg": "HS256", "typ": "JWT"}`. -/
def headerObj : Claims := [("alg", .jstr "HS256"), ("typ", .jstr "JWT")]

/-- The encoded header segment. -/
def headerSegment : List Char := b64Encode (utf8EncodeL (dumpsObj headerObj))

/-- The encoded payload segment for a payload object. -/
def payloadSegment (payload : Claims) : List Char :=
  b64Encode (utf8EncodeL (dumpsObj payload))

/-- `header_encoded.payload_encoded` — the HMAC input. -/
def signedMessage (payload : Claims) : List Char :=
  headerSegment ++ '.' :: payloadSegment payload

/-- The encoded signature segment: base64url of the HMAC-SHA256 of the
signed message under the secret. -/
def sigSegment (payload : Claims) (secret : String) : List Char :=
  b64Encode (hmacSha256 (utf8EncodeL secret.data) (utf8EncodeL (signedMessage payload)))

/-- `SimpleJWT.encode`: serialize and base64url-encode header and payload,
sign their dot-joined concatenation with HMAC-SHA256 under the secret, and
join the three segments with dots.  The Python `try` block's fallback of
returning `""` guards `json.dumps` failures on unserializable values; the
model's payloads are always serializable, so encoding is total here. -/
def encode (payload : Claims) (secret : String) : String :=
  String.mk (signedMessage payload ++ '.' :: sigSegment payload secret)

/-- The distinct `ValueError` outcomes of `SimpleJWT.decode`. -/
inductive DecodeError where
  /-- "Invalid token format": the token does not split into 3 segments. -/
  | invalidFormat
  /-- "Invalid signature": the constant-time comparison failed. -/
  | invalidSignature
  /-- base64 / unicode / JSON failure while decoding the payload segment. -/
  | invalidPayload
  /-- "Token has expired". -/
  | expired
  /-- comparison of a non-numeric `exp` claim against the clock raised. -/
  | badExpClaim
  /-- `TypeError` raised by `hmac.compare_digest` when a compared string
  has a non-ASCII character, re-raised as the generic "Token validation
  failed: comparing strings with non-ASCII characters is not supported"
  error — a distinct outcome from "Invalid signature". -/
  | nonAsciiCompare
deriving DecidableEq

/-- `hmac.compare_digest` on two `str` arguments: Python first requires
both strings to be ASCII-only — otherwise it raises `TypeError` before any
comparison happens — and then compares them in constant time; the model
keeps the outcome of the comparison, not its timing. -/
def compare_digest (a b : List Char) : Except Unit Bool :=
  if (∀ c ∈ a, c.toNat < 128) ∧ (∀ c ∈ b, c.toNat < 128) then
    .ok (decide (a = b))
  else .error ()

/-- `SimpleJWT.decode` at verification time `now` (epoch seconds —
`time.time()` is a parameter of the model): split on dots, recompute the
signature over the first two segments and compare with `compare_digest`
(which raises `TypeError` on a non-ASCII signature segment before any
comparison), base64url-decode and JSON-parse the payload, then reject
tokens whose `exp` claim is in the strict past.  Python's `True`/`False`
compare as 1/0 against the clock; `None` or a string `exp` raises inside
the guard. -/
def decode (token : String) (secret : String) (now : Int) :
    Except DecodeError Claims :=
  match splitOnDot token.data with
  | [headerEncoded, payloadEncoded, signatureEncoded] =>
      let message := headerEncoded ++ '.' :: payloadEncoded
      let expectedSignatureEncoded :=
        b64Encode (hmacSha256 (utf8EncodeL secret.data) (utf8EncodeL message))
      match compare_digest signatureEncoded expectedSignatureEncoded with
      | .error _ => .error .nonAsciiCompare
      | .ok false => .error .invalidSignature
      | .ok true =>
        match b64Decode (payloadEncoded ++ ['=', '=']) with
        | none => .error .invalidPayload
        | some payloadBytes =>
            match asciiDecode payloadBytes with
            | none => .error .invalidPayload
            | some payloadJson =>
                match json_loads payloadJson with
                | none => .error .invalidPayload
                | some payload =>
                    match pyLookup payload "exp" with
                    | none => .ok payload
                    | some (.jint e) =>
                        if e < now then .error .expired else .ok payload
                    | some (.jbool b) =>
                        if (if b then (1 : Int) else 0) < now then .error .expired
                        else .ok payload
                    | some _ => .error .badExpClaim
  | _ => .error .invalidFormat

end SimpleJWT

/-! ## Token utilities and the protected-route gate -/

/-- `SECRET_KEY` — the insecure default of `os.getenv("SECRET_KEY", ...)`. -/
def SECRET_KEY : String := "your-super-secret-key-change-in-production"

/-- `ACCESS_TOKEN_EXPIRE_MINUTES`. -/
def ACCESS_TOKEN_EXPIRE_MINUTES : Int := 60

/-- `create_access_token`: copy the claims, overwrite/insert the `exp`
claim with now plus the requested lifetime (default 60 minutes), and
encode under `SECRET_KEY`.  `expires_delta` is in seconds; `now` models
`datetime.utcnow()` as epoch seconds. -/
def create_access_token (data : Claims) (expires_delta : Option Int)
    (now : Int) : String :=
  let expire := match expires_delta with
    | some d => now + d
    | none => now + ACCESS_TOKEN_EXPIRE_MINUTES * 60
  SimpleJWT.encode (dictUpdate data "exp" (.jint expire)) SECRET_KEY

namespace SecurityBearer

/-- `SecurityBearer.verify_jwt`: decode under `SECRET_KEY` and require
`payload.get("sub") is not None`; a JSON `null` value is Python's `None`,
so it is rejected like an absent key.  Any decode error yields `False`. -/
def verify_jwt (token : String) (now : Int) : Bool :=
  match SimpleJWT.decode token SECRET_KEY now with
  | .ok payload =>
      match pyLookup payload "sub" with
      | some .jnull => false
      | some _ => true
      | none => false
  | .error _ => false

/-- Outcome of the protected-route admission check. -/
inductive AuthOutcome where
  /-- the bearer token was accepted; the credential is returned. -/
  | granted : String → AuthOutcome
  /-- HTTP 403 Forbidden with the given detail message. -/
  | forbidden : String → AuthOutcome
deriving DecidableEq

/-- `SecurityBearer.__call__` on a present credential: a non-Bearer scheme
is rejected, then the token must pass `verify_jwt`; otherwise the
credential string is returned to the route. -/
def callCheck (scheme : String) (token : String) (now : Int) : AuthOutcome :=
  if scheme ≠ "Bearer" then
    .forbidden "Invalid authentication scheme. Bearer token required."
  else if ¬ verify_jwt token now then
    .forbidden "Invalid token or expired token."
  else .granted token

end SecurityBearer

/-! ## Waste domain: data model, status, alerts, store -/

/-- Decimal-style rendering of a rational fill level, standing in for
Python's float interpolation inside f-string messages (the claims under
verification never depend on the digits, only on message identity per
category and level). -/
def ratText (q : ℚ) : String :=
  if q.den = 1 then toString q.num else toString q.num ++ "/" ++ toString q.den

/-- `WasteBinData` — a validated IoT reading (Pydantic enforces the id
length and the `[0, 100]` level bounds before the core sees it). -/
structure WasteBinData where
  bin_id : String
  organic_level : ℚ
  recyclable_level : ℚ
  hazardous_level : ℚ
deriving DecidableEq

/-- `WasteDatabase._calculate_bin_status`: banded status of the maximum
fill level. -/
def calculateBinStatus (data : WasteBinData) : String :=
  let max_level := max data.organic_level (max data.recyclable_level data.hazardous_level)
  if 90 ≤ max_level then "CRITICAL"
  else if 80 ≤ max_level then "HIGH"
  else if 60 ≤ max_level then "MEDIUM"
  else "LOW"

/-- The stored-alert message for the organic category. -/
def organicAlertText (level : ℚ) : String :=
  "Organic waste level critical: " ++ ratText level ++ "%"

/-- The stored-alert message for the recyclable category. -/
def recyclableAlertText (level : ℚ) : String :=
  "Recyclable waste level critical: " ++ ratText level ++ "%"

/-- The stored-alert message for the hazardous category. -/
def hazardousAlertText (level : ℚ) : String :=
  "Hazardous waste level critical: " ++ ratText level ++ "%"

/-- `WasteDatabase._generate_alerts`: one stored alert per category whose
level is at least 80, appended in the fixed order organic, recyclable,
hazardous. -/
def generateAlerts (data : WasteBinData) : List String :=
  (if 80 ≤ data.organic_level then [organicAlertText data.organic_level] else []) ++
  (if 80 ≤ data.recyclable_level then [recyclableAlertText data.recyclable_level] else []) ++
  (if 80 ≤ data.hazardous_level then [hazardousAlertText data.hazardous_level] else [])

/-- The outbound notification message for the organic category. -/
def organicNotifyText (binId : String) (level : ℚ) : String :=
  "ALERT: Bin " ++ binId ++ " - Organic waste level is " ++ ratText level ++
    "% (exceeds 80%)"

/-- The outbound notification message for the recyclable category. -/
def recyclableNotifyText (binId : String) (level : ℚ) : String :=
  "ALERT: Bin " ++ binId ++ " - Recyclable waste level is " ++ ratText level ++
    "% (exceeds 80%)"

/-- The outbound notification message for the hazardous category. -/
def hazardousNotifyText (binId : String) (level : ℚ) : String :=
  "CRITICAL ALERT: Bin " ++ binId ++ " - Hazardous waste level is " ++
    ratText level ++ "% (exceeds 80%)"

/-- `NotificationManager.check_and_notify`: one outbound message per
category whose level strictly exceeds the 80.0 threshold, in the fixed
category order. -/
def checkAndNotify (data : WasteBinData) : List String :=
  (if 80 < data.organic_level then [organicNotifyText data.bin_id data.organic_level] else []) ++
  (if 80 < data.recyclable_level then [recyclableNotifyText data.bin_id data.recyclable_level] else []) ++
  (if 80 < data.hazardous_level then [hazardousNotifyText data.bin_id data.hazardous_level] else [])

/-- A stored `BinRecord`: the dictionary written by
`WasteDatabase.store_bin_data` for one bin. -/
structure BinRecord where
  bin_id : String
  organic_level : ℚ
  recyclable_level : ℚ
  hazardous_level : ℚ
  last_updated : Int
  status : String
  alerts : List String
deriving DecidableEq

/-- The record derived from a reading at a timestamp. -/
def binRecordOf (data : WasteBinData) (timestamp : Int) : BinRecord :=
  { bin_id := data.bin_id,
    organic_level := data.organic_level,
    recyclable_level := data.recyclable_level,
    hazardous_level := data.hazardous_level,
    last_updated := timestamp,
    status := calculateBinStatus data,
    alerts := generateAlerts data }

/-- `WasteDatabase`: the in-memory `bins` dictionary. -/
structure WasteDatabase where
  bins : List (String × BinRecord)
deriving DecidableEq

/-- `WasteDatabase.store_bin_data` at a given wall-clock timestamp:
derive status and alerts, then assign `bins[bin_id] = record` (replace in
place or append); always reports success — the model has no failing
branch, matching the code where the `except` arm is unreachable for
validated input. -/
def store_bin_data (db : WasteDatabase) (data : WasteBinData) (timestamp : Int) :
    Bool × WasteDatabase :=
  (true, ⟨dictUpdate db.bins data.bin_id (binRecordOf data timestamp)⟩)

/-- `WasteDatabase.get_bin_status`. -/
def get_bin_status (db : WasteDatabase) (binId : String) : Option BinRecord :=
  pyLookup db.bins binId

/-- `WasteDatabase.get_all_bins`. -/
def get_all_bins (db : WasteDatabase) : List (String × BinRecord) := db.bins

/-- A fresh database (`WasteDatabase.__init__`). -/
def emptyDatabase : WasteDatabase := ⟨[]⟩

/-- Fold a sequence of timestamped readings into a fresh database. -/
def storeFold (l : List (WasteBinData × Int)) : WasteDatabase :=
  l.foldl (fun db p => (store_bin_data db p.1 p.2).2) emptyDatabase

/-! ## Rate limiting -/

/-- `RateLimiter`: per-identifier lists of recorded request times. -/
structure RateLimiter where
  requests : List (String × List ℚ)
deriving DecidableEq

/-- A fresh rate limiter (`RateLimiter.__init__`). -/
def emptyRateLimiter : RateLimiter := ⟨[]⟩

/-- `RateLimiter.is_allowed` at clock reading `now`: ensure the identifier
has an entry, keep only the timestamps `t` with `now - t < window`, then
record `now` and allow if the kept count is under the limit, else deny
without recording. -/
def is_allowed (rl : RateLimiter) (identifier : String) (limit : Nat)
    (window : ℚ) (now : ℚ) : Bool × RateLimiter :=
  let existing := (pyLookup rl.requests identifier).getD []
  let kept := existing.filter (fun t => now - t < window)
  if kept.length < limit then
    (true, ⟨dictUpdate rl.requests identifier (kept ++ [now])⟩)
  else
    (false, ⟨dictUpdate rl.requests identifier kept⟩)

/-! ## Basic facts: characters, alphabet, dot-splitting -/

theorem char_valid_range (c : Char) :
    c.toNat < 55296 ∨ (57343 < c.toNat ∧ c.toNat < 1114112) := by
  have h := c.valid
  simpa [UInt32.isValidChar, Nat.isValidChar, Char.toNat] using h

theorem b64Alphabet_props : ∀ c ∈ b64Alphabet, c ≠ '.' ∧ c ≠ '=' ∧ c.toNat < 128 := by
  decide

theorem b64Char_mem (n : Nat) : b64Char n ∈ b64Alphabet := by
  unfold b64Char
  rcases Nat.lt_or_ge n 64 with h | h
  · rw [List.getD_eq_getElem?_getD, List.getElem?_eq_getElem (by simpa [b64Alphabet] using h)]
    exact List.getElem_mem _
  · rw [List.getD_eq_getElem?_getD, List.getElem?_eq_none (by simpa [b64Alphabet] using h)]
    decide

theorem b64Val_b64Char_fin : ∀ n : Fin 64, b64Val (b64Char n.val) = some n.val := by
  decide

theorem b64Val_b64Char (n : Nat) (h : n < 64) : b64Val (b64Char n) = some n :=
  b64Val_b64Char_fin ⟨n, h⟩

theorem splitOnDot_ne_nil (l : List Char) : splitOnDot l ≠ [] := by
  cases l with
  | nil => simp [splitOnDot]
  | cons c rest =>
      simp only [splitOnDot]
      split
      · simp
      · split <;> simp

theorem splitOnDot_no_dot (l : List Char) (h : '.' ∉ l) : splitOnDot l = [l] := by
  induction l with
  | nil => rfl
  | cons c rest ih =>
      simp only [splitOnDot]
      rw [if_neg (by intro hc; exact h (hc ▸ List.mem_cons_self c rest))]
      rw [ih (fun hm => h (List.mem_cons_of_mem c hm))]

theorem splitOnDot_append (a rest : List Char) (ha : '.' ∉ a) :
    splitOnDot (a ++ '.' :: rest) = a :: splitOnDot rest := by
  induction a with
  | nil => simp [splitOnDot]
  | cons c t ih =>
      simp only [List.cons_append, splitOnDot]
      rw [if_neg (by intro hc; exact ha (hc ▸ List.mem_cons_self c t))]
      rw [List.append_eq, ih (fun hm => ha (List.mem_cons_of_mem c hm))]

theorem splitOnDot_three (h p s : List Char)
    (hh : '.' ∉ h) (hp : '.' ∉ p) (hs : '.' ∉ s) :
    splitOnDot (h ++ '.' :: (p ++ '.' :: s)) = [h, p, s] := by
  rw [splitOnDot_append _ _ hh, splitOnDot_append _ _ hp, splitOnDot_no_dot _ hs]

/-! ## base64url roundtrip -/

theorem b64Encode_mem : ∀ (bytes : List Nat), ∀ c ∈ b64Encode bytes, c ∈ b64Alphabet
  | [] => by simp [b64Encode]
  | [a] => by
      intro c hc
      simp only [b64Encode, List.mem_cons, List.not_mem_nil, or_false] at hc
      rcases hc with h | h <;> exact h ▸ b64Char_mem _
  | [a, b] => by
      intro c hc
      simp only [b64Encode, List.mem_cons, List.not_mem_nil, or_false] at hc
      rcases hc with h | h | h <;> exact h ▸ b64Char_mem _
  | a :: b :: c' :: rest => by
      intro c hc
      simp only [b64Encode, List.mem_cons] at hc
      rcases hc with h | h | h | h | h
      · exact h ▸ b64Char_mem _
      · exact h ▸ b64Char_mem _
      · exact h ▸ b64Char_mem _
      · exact h ▸ b64Char_mem _
      · exact b64Encode_mem rest c h

theorem b64Encode_ne_pad (bytes : List Nat) : ∀ c ∈ b64Encode bytes, c ≠ '=' :=
  fun c hc => (b64Alphabet_props c (b64Encode_mem bytes c hc)).2.1

theorem b64Encode_no_dot (bytes : List Nat) : '.' ∉ b64Encode bytes :=
  fun hd => (b64Alphabet_props '.' (b64Encode_mem bytes '.' hd)).1 rfl

theorem stripPad_append_pad (l : List Char) (h : ∀ c ∈ l, c ≠ '=') :
    stripPad (l ++ ['=', '=']) = l := by
  unfold stripPad
  rw [List.reverse_append]
  have : (['=', '='].reverse : List Char) = '=' :: '=' :: [] := rfl
  rw [this]
  simp only [List.dropWhile]
  norm_num
  cases hrev : l.reverse with
  | nil =>
      rw [List.reverse_eq_nil_iff] at hrev
      simp [hrev]
  | cons x xs =>
      have hx : x ∈ l := by
        have : x ∈ l.reverse := hrev ▸ List.mem_cons_self x xs
        simpa using this
      simp only [List.dropWhile]
      rw [decide_eq_false (h x hx)]
      rw [← hrev, List.reverse_reverse]

theorem b64core : ∀ (bytes : List Nat), (∀ x ∈ bytes, x < 256) →
    ((b64Encode bytes).mapM b64Val).bind b64DecodeVals = some bytes
  | [], _ => rfl
  | [a], h => by
      have ha : a < 256 := h a (by simp)
      rw [show b64Encode [a] = [b64Char (a / 4), b64Char (a % 4 * 16)] from rfl]
      simp only [List.mapM_cons, List.mapM_nil,
        b64Val_b64Char (a / 4) (by omega), b64Val_b64Char (a % 4 * 16) (by omega)]
      simp [b64DecodeVals]
      omega
  | [a, b], h => by
      have ha : a < 256 := h a (by simp)
      have hb : b < 256 := h b (by simp)
      rw [show b64Encode [a, b] =
        [b64Char (a / 4), b64Char (a % 4 * 16 + b / 16), b64Char (b % 16 * 4)] from rfl]
      simp only [List.mapM_cons, List.mapM_nil,
        b64Val_b64Char (a / 4) (by omega),
        b64Val_b64Char (a % 4 * 16 + b / 16) (by omega),
        b64Val_b64Char (b % 16 * 4) (by omega)]
      simp [b64DecodeVals]
      constructor
      · omega
      · omega
  | a :: b :: c :: rest, h => by
      have ha : a < 256 := h a (by simp)
      have hb : b < 256 := h b (by simp)
      have hc : c < 256 := h c (by simp)
      have ih := b64core rest (fun x hx => h x (by simp [hx]))
      rw [show b64Encode (a :: b :: c :: rest) =
        b64Char (a / 4) :: b64Char (a % 4 * 16 + b / 16) ::
        b64Char (b % 16 * 4 + c / 64) :: b64Char (c % 64) :: b64Encode rest from rfl]
      simp only [List.mapM_cons,
        b64Val_b64Char (a / 4) (by omega),
        b64Val_b64Char (a % 4 * 16 + b / 16) (by omega),
        b64Val_b64Char (b % 16 * 4 + c / 64) (by omega),
        b64Val_b64Char (c % 64) (by omega)]
      cases hmm : (b64Encode rest).mapM b64Val with
      | none => rw [hmm] at ih; simp at ih
      | some w =>
          have hw : b64DecodeVals w = some rest := by
            rw [hmm] at ih; simpa using ih
          simp [b64DecodeVals, hw]
          refine ⟨by omega, by omega, by omega⟩

theorem b64_roundtrip (bytes : List Nat) (h : ∀ x ∈ bytes, x < 256) :
    b64Decode (b64Encode bytes ++ ['=', '=']) = some bytes := by
  unfold b64Decode
  rw [stripPad_append_pad _ (b64Encode_ne_pad bytes)]
  exact b64core bytes h

/-! ## ASCII facts about serialized JSON, and the byte codec roundtrip -/

theorem hexChar_mem (i : Nat) : hexChar i ∈ hexChars := by
  unfold hexChar
  rcases Nat.lt_or_ge i 16 with h | h
  · rw [List.getD_eq_getElem?_getD, List.getElem?_eq_getElem (by simpa [hexChars] using h)]
    exact List.getElem_mem _
  · rw [List.getD_eq_getElem?_getD, List.getElem?_eq_none (by simpa [hexChars] using h)]
    decide

theorem hexChars_ascii : ∀ c ∈ hexChars, c.toNat < 128 := by decide

theorem hexChar_ascii (i : Nat) : (hexChar i).toNat < 128 :=
  hexChars_ascii _ (hexChar_mem i)

theorem hex4_ascii (n : Nat) : ∀ c ∈ hex4 n, c.toNat < 128 := by
  intro c hc
  simp only [hex4, List.mem_cons, List.not_mem_nil, or_false] at hc
  rcases hc with h | h | h | h <;> exact h ▸ hexChar_ascii _

theorem escapeChar_ascii (c : Char) : ∀ d ∈ escapeChar c, d.toNat < 128 := by
  intro d hd
  unfold escapeChar at hd
  split_ifs at hd with h1 h2 h3 h4 h5 h6 h7 h8 h9
  · simp only [List.mem_cons, List.not_mem_nil, or_false] at hd
    rcases hd with rfl | rfl <;> decide
  · simp only [List.mem_cons, List.not_mem_nil, or_false] at hd
    rcases hd with rfl | rfl <;> decide
  · simp only [List.mem_cons, List.not_mem_nil, or_false] at hd
    rcases hd with rfl | rfl <;> decide
  · simp only [List.mem_cons, List.not_mem_nil, or_false] at hd
    rcases hd with rfl | rfl <;> decide
  · simp only [List.mem_cons, List.not_mem_nil, or_false] at hd
    rcases hd with rfl | rfl <;> decide
  · simp only [List.mem_cons, List.not_mem_nil, or_false] at hd
    rcases hd with rfl | rfl <;> decide
  · simp only [List.mem_cons, List.not_mem_nil, or_false] at hd
    rcases hd with rfl | rfl <;> decide
  · simp only [List.mem_cons] at hd
    rcases hd with rfl | rfl | h
    · decide
    · decide
    · exact hex4_ascii _ _ h
  · simp only [List.cons_append, List.mem_cons, List.mem_append] at hd
    rcases hd with rfl | rfl | h | rfl | rfl | h
    · decide
    · decide
    · exact hex4_ascii _ _ h
    · decide
    · decide
    · exact hex4_ascii _ _ h
  · simp only [List.mem_cons, List.not_mem_nil, or_false] at hd
    subst hd
    push_neg at h8
    omega

theorem natCharsAux_ascii : ∀ (fuel n : Nat), ∀ d ∈ natCharsAux fuel n, d.toNat < 128
  | 0, n => by
      intro d hd
      simp only [natCharsAux, List.mem_cons, List.not_mem_nil, or_false] at hd
      exact hd ▸ hexChar_ascii n
  | fuel + 1, n => by
      intro d hd
      simp only [natCharsAux] at hd
      split_ifs at hd
      · simp only [List.mem_cons, List.not_mem_nil, or_false] at hd
        exact hd ▸ hexChar_ascii n
      · simp only [List.mem_append, List.mem_cons, List.not_mem_nil, or_false] at hd
        rcases hd with h | h
        · exact natCharsAux_ascii fuel (n / 10) d h
        · exact h ▸ hexChar_ascii _

theorem natChars_ascii (n : Nat) : ∀ d ∈ natChars n, d.toNat < 128 :=
  natCharsAux_ascii n n

theorem intChars_ascii (n : Int) : ∀ d ∈ intChars n, d.toNat < 128 := by
  intro d hd
  unfold intChars at hd
  split_ifs at hd
  · simp only [List.mem_cons] at hd
    rcases hd with rfl | h
    · decide
    · exact natChars_ascii _ _ h
  · exact natChars_ascii _ _ hd

theorem dumpsString_ascii (s : String) : ∀ d ∈ dumpsString s, d.toNat < 128 := by
  intro d hd
  rw [dumpsString] at hd
  rcases List.mem_cons.mp hd with rfl | hd
  · decide
  rcases List.mem_append.mp hd with hd | hd
  · rcases List.mem_flatten.mp hd with ⟨l, hl, hdl⟩
    rcases List.mem_map.mp hl with ⟨c, _, rfl⟩
    exact escapeChar_ascii c d hdl
  · simp only [List.mem_cons, List.not_mem_nil, or_false] at hd
    subst hd
    decide

theorem dumpsVal_ascii (v : JVal) : ∀ d ∈ dumpsVal v, d.toNat < 128 := by
  intro d hd
  cases v with
  | jstr s => exact dumpsString_ascii s d hd
  | jint n => exact intChars_ascii n d hd
  | jbool b =>
      cases b <;> simp only [dumpsVal] at hd <;>
        (revert hd; revert d; decide)
  | jnull =>
      simp only [dumpsVal] at hd
      revert hd; revert d; decide

theorem dumpsMembers_ascii : ∀ (l : Claims), ∀ d ∈ dumpsMembers l, d.toNat < 128
  | [] => by simp [dumpsMembers]
  | [(k, v)] => by
      intro d hd
      rw [show dumpsMembers [(k, v)] = dumpsString k ++ ':' :: ' ' :: dumpsVal v
        from rfl] at hd
      rcases List.mem_append.mp hd with hd | hd
      · exact dumpsString_ascii k d hd
      rcases List.mem_cons.mp hd with rfl | hd
      · decide
      rcases List.mem_cons.mp hd with rfl | hd
      · decide
      exact dumpsVal_ascii v d hd
  | (k, v) :: p :: rest => by
      intro d hd
      rw [show dumpsMembers ((k, v) :: p :: rest) =
        dumpsString k ++ ':' :: ' ' :: dumpsVal v ++ ',' :: ' ' :: dumpsMembers (p :: rest)
        from rfl] at hd
      rcases List.mem_append.mp hd with hd | hd
      · rcases List.mem_append.mp hd with hd | hd
        · exact dumpsString_ascii k d hd
        rcases List.mem_cons.mp hd with rfl | hd
        · decide
        rcases List.mem_cons.mp hd with rfl | hd
        · decide
        exact dumpsVal_ascii v d hd
      · rcases List.mem_cons.mp hd with rfl | hd
        · decide
        rcases List.mem_cons.mp hd with rfl | hd
        · decide
        exact dumpsMembers_ascii (p :: rest) d hd

theorem dumpsObj_ascii (l : Claims) : ∀ d ∈ dumpsObj l, d.toNat < 128 := by
  intro d hd
  rw [dumpsObj] at hd
  rcases List.mem_cons.mp hd with rfl | hd
  · decide
  rcases List.mem_append.mp hd with hd | hd
  · exact dumpsMembers_ascii l d hd
  · simp only [List.mem_cons, List.not_mem_nil, or_false] at hd
    subst hd
    decide

theorem utf8Char_ascii (c : Char) (h : c.toNat < 128) : utf8Char c = [c.toNat] := by
  unfold utf8Char
  rw [if_pos h]

theorem utf8_ascii : ∀ (l : List Char), (∀ c ∈ l, c.toNat < 128) →
    utf8EncodeL l = l.map Char.toNat
  | [] => fun _ => rfl
  | c :: rest => fun h => by
      simp only [utf8EncodeL, List.map_cons, List.flatten_cons]
      rw [utf8Char_ascii c (h c (by simp))]
      have := utf8_ascii rest (fun x hx => h x (by simp [hx]))
      simp only [utf8EncodeL] at this
      rw [this]
      rfl

theorem map_toNat_lt_256 (l : List Char) (h : ∀ c ∈ l, c.toNat < 128) :
    ∀ b ∈ l.map Char.toNat, b < 256 := by
  intro b hb
  simp only [List.mem_map] at hb
  rcases hb with ⟨c, hc, rfl⟩
  have := h c hc
  omega

theorem asciiDecode_map_toNat : ∀ (l : List Char), (∀ c ∈ l, c.toNat < 128) →
    asciiDecode (l.map Char.toNat) = some l
  | [] => fun _ => rfl
  | c :: rest => fun h => by
      have hc : c.toNat < 128 := h c (by simp)
      have ih := asciiDecode_map_toNat rest (fun x hx => h x (by simp [hx]))
      simp only [asciiDecode, List.map_cons, List.mapM_cons] at ih ⊢
      rw [if_pos hc, Char.ofNat_toNat]
      cases hmm : List.mapM (fun b => if b < 128 then some (Char.ofNat b) else none)
          (rest.map Char.toNat) with
      | none => rw [hmm] at ih; simp at ih
      | some w =>
          rw [hmm] at ih
          simp only [Option.pure_def, Option.bind_some, Option.bind_eq_bind] at ih ⊢
          simp_all

/-! ## JSON parse / dumps roundtrip -/

theorem hexVal_hexChar_fin : ∀ d : Fin 16, hexVal (hexChar d.val) = some d.val := by
  decide

theorem hexVal_hexChar (d : Nat) (h : d < 16) : hexVal (hexChar d) = some d :=
  hexVal_hexChar_fin ⟨d, h⟩

theorem digitVal_hexChar_fin : ∀ d : Fin 10, digitVal (hexChar d.val) = some d.val := by
  decide

theorem digitVal_hexChar (d : Nat) (h : d < 10) : digitVal (hexChar d) = some d :=
  digitVal_hexChar_fin ⟨d, h⟩


theorem readHex4_hex4 (n : Nat) (rest : List Char) (h : n < 65536) :
    readHex4 (hex4 n ++ rest) = some (n, rest) := by
  simp only [hex4, List.cons_append, List.nil_append]
  simp only [readHex4, hexVal_hexChar _ (by omega : n / 4096 % 16 < 16),
    hexVal_hexChar _ (by omega : n / 256 % 16 < 16),
    hexVal_hexChar _ (by omega : n / 16 % 16 < 16),
    hexVal_hexChar _ (by omega : n % 16 < 16)]
  congr 1
  rw [Prod.mk.injEq]
  constructor
  · omega
  · rfl

theorem readUnicodeEscape_bmp (c : Char) (rest : List Char) (h : c.toNat < 65536) :
    readUnicodeEscape (hex4 c.toNat ++ rest) = some (c, rest) := by
  have hv := char_valid_range c
  rw [readUnicodeEscape, readHex4_hex4 _ _ h]
  dsimp only
  rw [if_neg (by omega), if_neg (by omega), Char.ofNat_toNat]

theorem readUnicodeEscape_astral (c : Char) (rest : List Char) (h : 65536 ≤ c.toNat) :
    readUnicodeEscape (hex4 (55296 + (c.toNat - 65536) / 1024) ++
      '\\' :: 'u' :: (hex4 (56320 + (c.toNat - 65536) % 1024) ++ rest)) =
    some (c, rest) := by
  have hv := char_valid_range c
  rw [readUnicodeEscape, readHex4_hex4 _ _ (by omega)]
  try dsimp only
  rw [if_pos (by omega)]
  try dsimp only
  rw [if_pos ⟨rfl, rfl⟩]
  rw [readHex4_hex4 _ _ (by omega)]
  try dsimp only
  rw [if_pos (by omega)]
  rw [show 65536 + (55296 + (c.toNat - 65536) / 1024 - 55296) * 1024 +
      (56320 + (c.toNat - 65536) % 1024 - 56320) = c.toNat from by omega]
  rw [Char.ofNat_toNat]

theorem psb_esc_quote (fuel : Nat) (acc rest : List Char) :
    parseStringBody (fuel + 1) acc (escapeChar '"' ++ rest) =
      parseStringBody fuel ('"' :: acc) rest := by
  rw [show escapeChar '"' = ['\\', '"'] from by decide]
  simp only [List.cons_append, List.nil_append]
  simp only [parseStringBody]
  rw [if_neg (show ¬('\\' : Char) = '"' by decide),
      if_neg (show ¬('"' : Char) = 'u' by decide),
      show escCharOf '"' = some '"' from by decide]
  try dsimp only
  simp only [if_true]
theorem psb_esc_backslash (fuel : Nat) (acc rest : List Char) :
    parseStringBody (fuel + 1) acc (escapeChar '\\' ++ rest) =
      parseStringBody fuel ('\\' :: acc) rest := by
  rw [show escapeChar '\\' = ['\\', '\\'] from by decide]
  simp only [List.cons_append, List.nil_append]
  simp only [parseStringBody]
  rw [if_neg (show ¬('\\' : Char) = '"' by decide),
      if_neg (show ¬('\\' : Char) = 'u' by decide),
      show escCharOf '\\' = some '\\' from by decide]
  try dsimp only
  simp only [if_true]
theorem psb_esc_b (fuel : Nat) (acc rest : List Char) :
    parseStringBody (fuel + 1) acc (escapeChar '\x08' ++ rest) =
      parseStringBody fuel ('\x08' :: acc) rest := by
  rw [show escapeChar '\x08' = ['\\', 'b'] from by decide]
  simp only [List.cons_append, List.nil_append]
  simp only [parseStringBody]
  rw [if_neg (show ¬('\\' : Char) = '"' by decide),
      if_neg (show ¬('b' : Char) = 'u' by decide),
      show escCharOf 'b' = some '\x08' from by decide]
  try dsimp only
  simp only [if_true]
theorem psb_esc_t (fuel : Nat) (acc rest : List Char) :
    parseStringBody (fuel + 1) acc (escapeChar '\x09' ++ rest) =
      parseStringBody fuel ('\x09' :: acc) rest := by
  rw [show escapeChar '\x09' = ['\\', 't'] from by decide]
  simp only [List.cons_append, List.nil_append]
  simp only [parseStringBody]
  rw [if_neg (show ¬('\\' : Char) = '"' by decide),
      if_neg (show ¬('t' : Char) = 'u' by decide),
      show escCharOf 't' = some '\x09' from by decide]
  try dsimp only
  simp only [if_true]
theorem psb_esc_n (fuel : Nat) (acc rest : List Char) :
    parseStringBody (fuel + 1) acc (escapeChar '\x0a' ++ rest) =
      parseStringBody fuel ('\x0a' :: acc) rest := by
  rw [show escapeChar '\x0a' = ['\\', 'n'] from by decide]
  simp only [List.cons_append, List.nil_append]
  simp only [parseStringBody]
  rw [if_neg (show ¬('\\' : Char) = '"' by decide),
      if_neg (show ¬('n' : Char) = 'u' by decide),
      show escCharOf 'n' = some '\x0a' from by decide]
  try dsimp only
  simp only [if_true]
theorem psb_esc_f (fuel : Nat) (acc rest : List Char) :
    parseStringBody (fuel + 1) acc (escapeChar '\x0c' ++ rest) =
      parseStringBody fuel ('\x0c' :: acc) rest := by
  rw [show escapeChar '\x0c' = ['\\', 'f'] from by decide]
  simp only [List.cons_append, List.nil_append]
  simp only [parseStringBody]
  rw [if_neg (show ¬('\\' : Char) = '"' by decide),
      if_neg (show ¬('f' : Char) = 'u' by decide),
      show escCharOf 'f' = some '\x0c' from by decide]
  try dsimp only
  simp only [if_true]
theorem psb_esc_r (fuel : Nat) (acc rest : List Char) :
    parseStringBody (fuel + 1) acc (escapeChar '\x0d' ++ rest) =
      parseStringBody fuel ('\x0d' :: acc) rest := by
  rw [show escapeChar '\x0d' = ['\\', 'r'] from by decide]
  simp only [List.cons_append, List.nil_append]
  simp only [parseStringBody]
  rw [if_neg (show ¬('\\' : Char) = '"' by decide),
      if_neg (show ¬('r' : Char) = 'u' by decide),
      show escCharOf 'r' = some '\x0d' from by decide]
  try dsimp only
  simp only [if_true]

theorem psb_u (fuel : Nat) (acc tail : List Char) :
    parseStringBody (fuel + 1) acc ('\\' :: 'u' :: tail) =
      (match readUnicodeEscape tail with
       | some (d, rest3) => parseStringBody fuel (d :: acc) rest3
       | none => none) := by
  simp only [parseStringBody]
  simp only [if_true]
  rw [if_neg (show ¬('\\' : Char) = '"' by decide)]

theorem psb_bmp (c : Char) (fuel : Nat) (acc rest : List Char) (h9 : c.toNat < 65536) :
    parseStringBody (fuel + 1) acc (('\\' :: 'u' :: hex4 c.toNat) ++ rest) =
      parseStringBody fuel (c :: acc) rest := by
  have hshape : (('\\' :: 'u' :: hex4 c.toNat) ++ rest) =
      '\\' :: 'u' :: (hex4 c.toNat ++ rest) := by
    simp [List.cons_append]
  rw [hshape, psb_u, readUnicodeEscape_bmp c rest h9]

theorem psb_astral (c : Char) (fuel : Nat) (acc rest : List Char) (h9 : 65536 ≤ c.toNat) :
    parseStringBody (fuel + 1) acc
      (('\\' :: 'u' :: hex4 (55296 + (c.toNat - 65536) / 1024) ++
        ('\\' :: 'u' :: hex4 (56320 + (c.toNat - 65536) % 1024))) ++ rest) =
      parseStringBody fuel (c :: acc) rest := by
  have hshape : (('\\' :: 'u' :: hex4 (55296 + (c.toNat - 65536) / 1024) ++
        ('\\' :: 'u' :: hex4 (56320 + (c.toNat - 65536) % 1024))) ++ rest) =
      '\\' :: 'u' :: (hex4 (55296 + (c.toNat - 65536) / 1024) ++
        '\\' :: 'u' :: (hex4 (56320 + (c.toNat - 65536) % 1024) ++ rest)) := by
    simp [List.cons_append, List.append_assoc]
  rw [hshape, psb_u, readUnicodeEscape_astral c rest h9]

theorem psb_plain (c : Char) (fuel : Nat) (acc rest : List Char)
    (h1 : ¬c = '"') (h2 : ¬c = '\\') (h3 : ¬c.toNat < 32) :
    parseStringBody (fuel + 1) acc (c :: rest) = parseStringBody fuel (c :: acc) rest := by
  simp only [parseStringBody]
  rw [if_neg h1, if_neg h2, if_neg h3]

theorem escapeChar_eq_bmp (c : Char) (h1 : ¬c = '"') (h2 : ¬c = '\\')
    (h3 : ¬c = '\x08') (h4 : ¬c = '\x09') (h5 : ¬c = '\x0a') (h6 : ¬c = '\x0c')
    (h7 : ¬c = '\x0d') (h8 : c.toNat < 32 ∨ 127 ≤ c.toNat) (h9 : c.toNat < 65536) :
    escapeChar c = '\\' :: 'u' :: hex4 c.toNat := by
  unfold escapeChar
  rw [if_neg h1, if_neg h2, if_neg h3, if_neg h4, if_neg h5, if_neg h6, if_neg h7,
      if_pos h8, if_pos h9]

theorem escapeChar_eq_astral (c : Char) (h1 : ¬c = '"') (h2 : ¬c = '\\')
    (h3 : ¬c = '\x08') (h4 : ¬c = '\x09') (h5 : ¬c = '\x0a') (h6 : ¬c = '\x0c')
    (h7 : ¬c = '\x0d') (h8 : c.toNat < 32 ∨ 127 ≤ c.toNat) (h9 : ¬c.toNat < 65536) :
    escapeChar c = '\\' :: 'u' :: hex4 (55296 + (c.toNat - 65536) / 1024) ++
      ('\\' :: 'u' :: hex4 (56320 + (c.toNat - 65536) % 1024)) := by
  unfold escapeChar
  rw [if_neg h1, if_neg h2, if_neg h3, if_neg h4, if_neg h5, if_neg h6, if_neg h7,
      if_pos h8, if_neg h9]

theorem escapeChar_eq_plain (c : Char) (h1 : ¬c = '"') (h2 : ¬c = '\\')
    (h3 : ¬c = '\x08') (h4 : ¬c = '\x09') (h5 : ¬c = '\x0a') (h6 : ¬c = '\x0c')
    (h7 : ¬c = '\x0d') (h8 : ¬(c.toNat < 32 ∨ 127 ≤ c.toNat)) :
    escapeChar c = [c] := by
  unfold escapeChar
  rw [if_neg h1, if_neg h2, if_neg h3, if_neg h4, if_neg h5, if_neg h6, if_neg h7,
      if_neg h8]

theorem parseStringBody_escape (c : Char) (fuel : Nat) (acc rest : List Char) :
    parseStringBody (fuel + 1) acc (escapeChar c ++ rest) =
      parseStringBody fuel (c :: acc) rest := by
  by_cases h1 : c = '"'
  · subst h1; exact psb_esc_quote fuel acc rest
  by_cases h2 : c = '\\'
  · subst h2; exact psb_esc_backslash fuel acc rest
  by_cases h3 : c = '\x08'
  · subst h3; exact psb_esc_b fuel acc rest
  by_cases h4 : c = '\x09'
  · subst h4; exact psb_esc_t fuel acc rest
  by_cases h5 : c = '\x0a'
  · subst h5; exact psb_esc_n fuel acc rest
  by_cases h6 : c = '\x0c'
  · subst h6; exact psb_esc_f fuel acc rest
  by_cases h7 : c = '\x0d'
  · subst h7; exact psb_esc_r fuel acc rest
  by_cases h8 : c.toNat < 32 ∨ 127 ≤ c.toNat
  · by_cases h9 : c.toNat < 65536
    · rw [escapeChar_eq_bmp c h1 h2 h3 h4 h5 h6 h7 h8 h9]
      exact psb_bmp c fuel acc rest h9
    · rw [escapeChar_eq_astral c h1 h2 h3 h4 h5 h6 h7 h8 h9]
      exact psb_astral c fuel acc rest (by omega)
  · rw [escapeChar_eq_plain c h1 h2 h3 h4 h5 h6 h7 h8]
    rw [show ([c] : List Char) ++ rest = c :: rest from rfl]
    exact psb_plain c fuel acc rest h1 h2 (by omega)

theorem escapeChar_ne_nil (c : Char) : escapeChar c ≠ [] := by
  unfold escapeChar
  split_ifs <;> simp

theorem escaped_length_ge (cs : List Char) :
    cs.length ≤ ((cs.map escapeChar).flatten).length := by
  induction cs with
  | nil => simp
  | cons c t ih =>
      simp only [List.map_cons, List.flatten_cons, List.length_append, List.length_cons]
      have h1 : 1 ≤ (escapeChar c).length := by
        rcases hc : escapeChar c with _ | _
        · exact absurd hc (escapeChar_ne_nil c)
        · simp
      omega

theorem parseStringBody_flatten :
    ∀ (cs : List Char) (fuel : Nat) (acc rest : List Char), cs.length < fuel →
    parseStringBody fuel acc ((cs.map escapeChar).flatten ++ '"' :: rest) =
      some (String.mk (acc.reverse ++ cs), rest)
  | [], fuel, acc, rest => fun h => by
      cases fuel with
      | zero => omega
      | succ f =>
          simp only [List.map_nil, List.flatten_nil, List.nil_append]
          simp only [parseStringBody]
          simp only [if_true]
          simp
  | c :: cs, fuel, acc, rest => fun h => by
      cases fuel with
      | zero => omega
      | succ f =>
          simp only [List.map_cons, List.flatten_cons, List.append_assoc]
          rw [parseStringBody_escape c f acc _]
          rw [parseStringBody_flatten cs f (c :: acc) rest (by simp at h; omega)]
          simp

theorem parseStringTok_dumps (s : String) (rest : List Char) :
    parseStringTok (dumpsString s ++ rest) = some (s, rest) := by
  rw [dumpsString]
  rw [show ('"' :: (s.data.map escapeChar).flatten ++ ['"']) ++ rest =
    '"' :: ((s.data.map escapeChar).flatten ++ '"' :: rest) from by simp]
  rw [show parseStringTok ('"' :: ((s.data.map escapeChar).flatten ++ '"' :: rest)) =
    if ('"' : Char) = '"' then
      parseStringBody (((s.data.map escapeChar).flatten ++ '"' :: rest).length + 1) []
        ((s.data.map escapeChar).flatten ++ '"' :: rest)
    else none from rfl]
  rw [if_pos rfl]
  rw [parseStringBody_flatten s.data _ [] rest
    (by simp only [List.length_append, List.length_cons]
        have := escaped_length_ge s.data
        omega)]
  simp

theorem hexChar_digit_props : ∀ d : Fin 10, hexChar d.val ≠ '-' ∧ hexChar d.val ≠ '"' ∧
    hexChar d.val ≠ 't' ∧ hexChar d.val ≠ 'f' ∧ hexChar d.val ≠ 'n' := by
  decide

theorem parseNatAux_run :
    ∀ (D : List Char) (acc : Nat) (rest : List Char),
    (∀ c ∈ D, ∃ d, digitVal c = some d) →
    (∀ c rs, rest = c :: rs → digitVal c = none) →
    parseNatAux acc (D ++ rest) =
      (D.foldl (fun a c => a * 10 + (digitVal c).getD 0) acc, rest)
  | [], acc, rest, _, hrest => by
      cases rest with
      | nil => rfl
      | cons c rs =>
          simp only [List.nil_append, List.foldl_nil]
          simp only [parseNatAux]
          rw [hrest c rs rfl]
  | c :: D, acc, rest, hD, hrest => by
      obtain ⟨d, hd⟩ := hD c (by simp)
      simp only [List.cons_append, List.foldl_cons]
      simp only [parseNatAux]
      rw [hd]
      try dsimp only
      rw [parseNatAux_run D (acc * 10 + d) rest (fun x hx => hD x (by simp [hx])) hrest]
      rfl

theorem natCharsAux_foldl : ∀ (fuel n acc : Nat), n ≤ fuel →
    (natCharsAux fuel n).foldl (fun a c => a * 10 + (digitVal c).getD 0) acc =
      acc * 10 ^ (natCharsAux fuel n).length + n
  | 0, n, acc, h => by
      have hn : n = 0 := by omega
      subst hn
      simp [natCharsAux]
      rfl
  | fuel + 1, n, acc, h => by
      simp only [natCharsAux]
      split_ifs with h10
      · simp only [List.foldl_cons, List.foldl_nil, digitVal_hexChar n h10,
          Option.getD_some, List.length_cons, List.length_nil]
        ring
      · rw [List.foldl_append]
        rw [natCharsAux_foldl fuel (n / 10) acc (by omega)]
        simp only [List.foldl_cons, List.foldl_nil,
          digitVal_hexChar (n % 10) (by omega), Option.getD_some,
          List.length_append, List.length_cons, List.length_nil]
        rw [pow_succ]
        have hdm := Nat.div_add_mod n 10
        ring_nf
        omega

theorem natCharsAux_digits : ∀ (fuel n : Nat), n ≤ fuel →
    ∀ c ∈ natCharsAux fuel n, ∃ d, d < 10 ∧ c = hexChar d
  | 0, n, h, c, hc => by
      have hn : n = 0 := by omega
      subst hn
      simp only [natCharsAux, List.mem_cons, List.not_mem_nil, or_false] at hc
      exact ⟨0, by omega, hc⟩
  | fuel + 1, n, h, c, hc => by
      simp only [natCharsAux] at hc
      split_ifs at hc with h10
      · simp only [List.mem_cons, List.not_mem_nil, or_false] at hc
        exact ⟨n, h10, hc⟩
      · rcases List.mem_append.mp hc with hc | hc
        · exact natCharsAux_digits fuel (n / 10) (by omega) c hc
        · simp only [List.mem_cons, List.not_mem_nil, or_false] at hc
          exact ⟨n % 10, by omega, hc⟩

theorem natCharsAux_ne_nil (fuel n : Nat) : natCharsAux fuel n ≠ [] := by
  cases fuel with
  | zero => simp [natCharsAux]
  | succ f =>
      simp only [natCharsAux]
      split_ifs <;> simp

theorem parseNat_natChars (m : Nat) (c : Char) (D : List Char) (rest : List Char)
    (hnat : natChars m = c :: D)
    (hrest : ∀ x rs, rest = x :: rs → digitVal x = none) :
    ∃ v, digitVal c = some v ∧ parseNatAux v (D ++ rest) = (m, rest) := by
  have hdigits := natCharsAux_digits m m le_rfl
  rw [show natCharsAux m m = natChars m from rfl, hnat] at hdigits
  obtain ⟨d, hd10, rfl⟩ := hdigits c (by simp)
  refine ⟨d, digitVal_hexChar d hd10, ?_⟩
  have hrun := parseNatAux_run D d rest
    (fun x hx => by
      obtain ⟨e, he10, rfl⟩ := hdigits x (by simp [hx])
      exact ⟨e, digitVal_hexChar e he10⟩)
    hrest
  rw [hrun]
  have hfold := natCharsAux_foldl m m 0 le_rfl
  rw [show natCharsAux m m = natChars m from rfl, hnat] at hfold
  simp only [List.foldl_cons, digitVal_hexChar d hd10, Option.getD_some,
    List.length_cons] at hfold
  norm_num at hfold
  rw [hfold]

theorem parseIntTok_intChars (n : Int) (rest : List Char)
    (hrest : ∀ x rs, rest = x :: rs → digitVal x = none) :
    parseIntTok (intChars n ++ rest) = some (n, rest) := by
  unfold intChars
  split_ifs with hneg
  · rcases hnat : natChars n.natAbs with _ | ⟨c, D⟩
    · exact absurd hnat (natCharsAux_ne_nil _ _)
    obtain ⟨v, hv, hparse⟩ := parseNat_natChars n.natAbs c D rest hnat hrest
    simp only [List.cons_append, hnat, parseIntTok]
    simp only [if_true]
    rw [hv]
    try dsimp only
    rw [hparse]
    try dsimp only
    have h' : -(n.natAbs : Int) = n := by omega
    rw [h']
  · rcases hnat : natChars n.natAbs with _ | ⟨c, D⟩
    · exact absurd hnat (natCharsAux_ne_nil _ _)
    obtain ⟨v, hv, hparse⟩ := parseNat_natChars n.natAbs c D rest hnat hrest
    have hdigits := natCharsAux_digits n.natAbs n.natAbs le_rfl
    rw [show natCharsAux n.natAbs n.natAbs = natChars n.natAbs from rfl, hnat] at hdigits
    obtain ⟨d, hd10, rfl⟩ := hdigits c (by simp)
    simp only [hnat, List.cons_append, parseIntTok]
    rw [if_neg (hexChar_digit_props ⟨d, hd10⟩).1]
    rw [hv]
    try dsimp only
    rw [hparse]
    try dsimp only
    have h' : (n.natAbs : Int) = n := by omega
    rw [h']

theorem parseVal_dumpsVal (v : JVal) (d : Char) (rest : List Char)
    (hd : digitVal d = none) :
    parseVal (dumpsVal v ++ d :: rest) = some (v, d :: rest) := by
  cases v with
  | jstr s =>
      rw [show dumpsVal (JVal.jstr s) = dumpsString s from rfl, dumpsString]
      rw [show ('"' :: (s.data.map escapeChar).flatten ++ ['"']) ++ d :: rest =
        '"' :: ((s.data.map escapeChar).flatten ++ '"' :: (d :: rest)) from by simp]
      simp only [parseVal]
      simp only [if_true]
      rw [parseStringBody_flatten s.data _ [] (d :: rest)
        (by simp only [List.length_append, List.length_cons]
            have := escaped_length_ge s.data
            omega)]
      simp
  | jint m =>
      rw [show dumpsVal (JVal.jint m) = intChars m from rfl]
      have hrest : ∀ x rs, (d :: rest : List Char) = x :: rs → digitVal x = none := by
        intro x rs hx
        cases hx
        exact hd
      have hparse := parseIntTok_intChars m (d :: rest) hrest
      unfold intChars at hparse ⊢
      split_ifs at hparse ⊢ with hneg
      · simp only [List.cons_append] at hparse ⊢
        simp only [parseVal]
        rw [if_neg (by decide), if_neg (by decide), if_neg (by decide), if_neg (by decide)]
        rw [hparse]
        rfl
      · rcases hnat : natChars m.natAbs with _ | ⟨c, D⟩
        · exact absurd hnat (natCharsAux_ne_nil _ _)
        have hdigits := natCharsAux_digits m.natAbs m.natAbs le_rfl
        rw [show natCharsAux m.natAbs m.natAbs = natChars m.natAbs from rfl, hnat] at hdigits
        obtain ⟨e, he10, rfl⟩ := hdigits c (by simp)
        rw [hnat] at hparse
        try rw [hnat]
        simp only [List.cons_append] at hparse ⊢
        simp only [parseVal]
        rw [if_neg (hexChar_digit_props ⟨e, he10⟩).2.1,
            if_neg (hexChar_digit_props ⟨e, he10⟩).2.2.1,
            if_neg (hexChar_digit_props ⟨e, he10⟩).2.2.2.1,
            if_neg (hexChar_digit_props ⟨e, he10⟩).2.2.2.2]
        rw [hparse]
        rfl
  | jbool b => cases b <;> rfl
  | jnull => rfl

theorem dumpsMembers_length_ge : ∀ (ms : Claims), ms.length ≤ (dumpsMembers ms).length
  | [] => by simp [dumpsMembers]
  | [(k, v)] => by
      rw [show dumpsMembers [(k, v)] = dumpsString k ++ ':' :: ' ' :: dumpsVal v from rfl]
      simp [dumpsString]
  | (k, v) :: p :: rest => by
      rw [show dumpsMembers ((k, v) :: p :: rest) =
        dumpsString k ++ ':' :: ' ' :: dumpsVal v ++ ',' :: ' ' :: dumpsMembers (p :: rest)
        from rfl]
      have ih := dumpsMembers_length_ge (p :: rest)
      simp only [List.length_append, List.length_cons, dumpsString, List.length_cons] at ih ⊢
      omega

theorem parseMembersAux_dumps :
    ∀ (ms : Claims) (fuel : Nat) (acc : Claims) (rest : List Char),
    ms ≠ [] → ms.length < fuel →
    parseMembersAux fuel acc (dumpsMembers ms ++ Char.ofNat 125 :: rest) =
      some (acc.reverse ++ ms, rest)
  | [], _, _, _, hne, _ => absurd rfl hne
  | [(k, v)], fuel, acc, rest, _, hfuel => by
      cases fuel with
      | zero => omega
      | succ f =>
          rw [show dumpsMembers [(k, v)] = dumpsString k ++ ':' :: ' ' :: dumpsVal v
            from rfl]
          rw [show (dumpsString k ++ ':' :: ' ' :: dumpsVal v) ++ Char.ofNat 125 :: rest =
            dumpsString k ++ ':' :: ' ' :: (dumpsVal v ++ Char.ofNat 125 :: rest)
            from by simp]
          simp only [parseMembersAux]
          rw [parseStringTok_dumps k (':' :: ' ' :: (dumpsVal v ++ Char.ofNat 125 :: rest))]
          try dsimp only
          rw [if_pos ⟨rfl, rfl⟩]
          rw [parseVal_dumpsVal v (Char.ofNat 125) rest (by decide)]
          try dsimp only
          rw [if_neg (by decide), if_pos rfl]
          simp
  | (k, v) :: p :: ms, fuel, acc, rest, _, hfuel => by
      cases fuel with
      | zero => omega
      | succ f =>
          rw [show dumpsMembers ((k, v) :: p :: ms) =
            dumpsString k ++ ':' :: ' ' :: dumpsVal v ++ ',' :: ' ' :: dumpsMembers (p :: ms)
            from rfl]
          rw [show (dumpsString k ++ ':' :: ' ' :: dumpsVal v ++
              ',' :: ' ' :: dumpsMembers (p :: ms)) ++ Char.ofNat 125 :: rest =
            dumpsString k ++ ':' :: ' ' ::
              (dumpsVal v ++ ',' :: ' ' :: (dumpsMembers (p :: ms) ++ Char.ofNat 125 :: rest))
            from by simp]
          simp only [parseMembersAux]
          rw [parseStringTok_dumps k _]
          try dsimp only
          rw [if_pos ⟨rfl, rfl⟩]
          rw [parseVal_dumpsVal v ',' (' ' :: (dumpsMembers (p :: ms) ++ Char.ofNat 125 :: rest))
            (by decide)]
          try dsimp only
          rw [if_pos rfl]
          try dsimp only
          rw [if_pos rfl]
          rw [parseMembersAux_dumps (p :: ms) f ((k, v) :: acc) rest (by simp)
            (by simp at hfuel ⊢; omega)]
          simp

theorem json_loads_dumpsObj : ∀ (ms : Claims), json_loads (dumpsObj ms) = some ms
  | [] => rfl
  | (k, v) :: ms => by
      have hcons : ∃ t, dumpsMembers ((k, v) :: ms) = '"' :: t := by
        cases ms with
        | nil =>
            refine ⟨(k.data.map escapeChar).flatten ++ ['"'] ++ ':' :: ' ' :: dumpsVal v, ?_⟩
            rw [show dumpsMembers [(k, v)] = dumpsString k ++ ':' :: ' ' :: dumpsVal v
              from rfl, dumpsString]
            simp
        | cons p ms' =>
            refine ⟨(k.data.map escapeChar).flatten ++ ['"'] ++ ':' :: ' ' :: dumpsVal v ++
              ',' :: ' ' :: dumpsMembers (p :: ms'), ?_⟩
            rw [show dumpsMembers ((k, v) :: p :: ms') = dumpsString k ++ ':' :: ' ' ::
              dumpsVal v ++ ',' :: ' ' :: dumpsMembers (p :: ms') from rfl, dumpsString]
            simp
      obtain ⟨t, ht⟩ := hcons
      rw [dumpsObj]
      rw [show (Char.ofNat 123 :: dumpsMembers ((k, v) :: ms)) ++ [Char.ofNat 125] =
        Char.ofNat 123 :: '"' :: (t ++ Char.ofNat 125 :: []) from by rw [ht]; simp]
      simp only [json_loads]
      simp only [if_true]
      rw [if_neg (by decide)]
      have hback : ('"' :: (t ++ Char.ofNat 125 :: []) : List Char) =
          dumpsMembers ((k, v) :: ms) ++ Char.ofNat 125 :: [] := by
        rw [ht]; simp
      rw [hback]
      rw [parseMembersAux_dumps ((k, v) :: ms) _ [] [] (by simp) ?_]
      · simp
      · have := dumpsMembers_length_ge ((k, v) :: ms)
        simp only [List.length_append, List.length_cons] at this ⊢
        omega

/-! ## Dictionary lemmas -/

theorem pyLookup_dictUpdate {α : Type} (l : List (String × α)) (k : String) (v : α) :
    pyLookup (dictUpdate l k v) k = some v := by
  unfold dictUpdate pyLookup
  split_ifs with h
  · rw [← List.map_reverse]
    have h' : l.reverse.any (fun p => p.1 = k) = true := by
      rw [List.any_reverse]; exact h
    generalize l.reverse = lr at h' ⊢
    induction lr with
    | nil => simp at h'
    | cons p t ih =>
        by_cases hp : p.1 = k
        · simp only [List.map_cons, if_pos hp]
          rw [List.find?_cons_of_pos _ (by simp)]
          rfl
        · simp only [List.map_cons, if_neg hp]
          rw [List.find?_cons_of_neg _ (by simpa using hp)]
          apply ih
          simp only [List.any_cons, Bool.or_eq_true] at h'
          rcases h' with h' | h'
          · exact absurd (by simpa using h') hp
          · exact h'
  · rw [List.reverse_append]
    simp only [List.reverse_cons, List.reverse_nil, List.nil_append, List.cons_append]
    rw [List.find?_cons_of_pos _ (by simp)]
    rfl

theorem dictUpdate_keys_nodup {α : Type} (l : List (String × α)) (k : String) (v : α)
    (h : (l.map Prod.fst).Nodup) : ((dictUpdate l k v).map Prod.fst).Nodup := by
  unfold dictUpdate
  split_ifs with hmem
  · have : (l.map (fun p => if p.1 = k then (k, v) else p)).map Prod.fst = l.map Prod.fst := by
      rw [List.map_map]
      apply List.map_congr_left
      intro p _
      by_cases hp : p.1 = k
      · simp [hp]
      · simp [hp]
    rw [this]
    exact h
  · rw [List.map_append]
    simp only [List.map_cons, List.map_nil]
    rw [List.nodup_append]
    refine ⟨h, by simp, ?_⟩
    intro x hx
    simp only [List.mem_singleton]
    intro hk
    subst hk
    rcases List.mem_map.mp hx with ⟨p, hp, rfl⟩
    rw [List.any_eq_true] at hmem
    exact hmem ⟨p, hp, by simp⟩

/-! ## The signature comparison -/

theorem b64Encode_ascii (bytes : List Nat) :
    ∀ c ∈ b64Encode bytes, c.toNat < 128 :=
  fun c hc => (b64Alphabet_props c (b64Encode_mem bytes c hc)).2.2

theorem sigSegment_ascii (payload : Claims) (secret : String) :
    ∀ c ∈ SimpleJWT.sigSegment payload secret, c.toNat < 128 := by
  rw [SimpleJWT.sigSegment]
  exact b64Encode_ascii _

theorem compare_digest_self (a : List Char) (h : ∀ c ∈ a, c.toNat < 128) :
    SimpleJWT.compare_digest a a = .ok true := by
  unfold SimpleJWT.compare_digest
  rw [if_pos ⟨h, h⟩]
  simp

theorem compare_digest_ne (a b : List Char) (ha : ∀ c ∈ a, c.toNat < 128)
    (hb : ∀ c ∈ b, c.toNat < 128) (hne : a ≠ b) :
    SimpleJWT.compare_digest a b = .ok false := by
  unfold SimpleJWT.compare_digest
  rw [if_pos ⟨ha, hb⟩]
  simp [hne]

theorem compare_digest_nonascii_left (a b : List Char)
    (ha : ¬ ∀ c ∈ a, c.toNat < 128) :
    SimpleJWT.compare_digest a b = .error () := by
  unfold SimpleJWT.compare_digest
  rw [if_neg (fun h => ha h.1)]

/-! ## Decode of a freshly encoded token -/

theorem decode_encode (payload : Claims) (secret : String) (now : Int) :
    SimpleJWT.decode (SimpleJWT.encode payload secret) secret now =
      (match pyLookup payload "exp" with
       | none => .ok payload
       | some (.jint e) => if e < now then .error .expired else .ok payload
       | some (.jbool b) =>
           if (if b then (1 : Int) else 0) < now then .error .expired else .ok payload
       | some _ => .error .badExpClaim) := by
  unfold SimpleJWT.decode SimpleJWT.encode
  rw [show (String.mk (SimpleJWT.signedMessage payload ++
      '.' :: SimpleJWT.sigSegment payload secret)).data =
    SimpleJWT.signedMessage payload ++ '.' :: SimpleJWT.sigSegment payload secret from rfl]
  rw [show SimpleJWT.signedMessage payload ++ '.' :: SimpleJWT.sigSegment payload secret =
    SimpleJWT.headerSegment ++ '.' ::
      (SimpleJWT.payloadSegment payload ++ '.' :: SimpleJWT.sigSegment payload secret)
    from by rw [SimpleJWT.signedMessage]; simp]
  have hh : '.' ∉ SimpleJWT.headerSegment := by
    rw [SimpleJWT.headerSegment]; exact b64Encode_no_dot _
  have hp : '.' ∉ SimpleJWT.payloadSegment payload := by
    rw [SimpleJWT.payloadSegment]; exact b64Encode_no_dot _
  have hs : '.' ∉ SimpleJWT.sigSegment payload secret := by
    rw [SimpleJWT.sigSegment]; exact b64Encode_no_dot _
  rw [splitOnDot_three _ _ _ hh hp hs]
  try dsimp only
  rw [show b64Encode (hmacSha256 (utf8EncodeL secret.data)
      (utf8EncodeL (SimpleJWT.headerSegment ++ '.' :: SimpleJWT.payloadSegment payload))) =
    SimpleJWT.sigSegment payload secret
    from by rw [SimpleJWT.sigSegment, SimpleJWT.signedMessage]]
  rw [compare_digest_self _ (sigSegment_ascii payload secret)]
  try dsimp only
  rw [show SimpleJWT.payloadSegment payload =
    b64Encode ((dumpsObj payload).map Char.toNat)
    from by rw [SimpleJWT.payloadSegment, utf8_ascii _ (dumpsObj_ascii payload)]]
  rw [b64_roundtrip _ (map_toNat_lt_256 _ (dumpsObj_ascii payload))]
  try dsimp only
  rw [asciiDecode_map_toNat _ (dumpsObj_ascii payload)]
  try dsimp only
  rw [json_loads_dumpsObj payload]

/-! ## Shape facts about encoded tokens -/

theorem sha256Compress_length (hs block : List Nat) :
    (sha256Compress hs block).length = 8 := rfl

theorem foldl_compress_length :
    ∀ (blocks : List (List Nat)) (hs : List Nat), hs.length = 8 →
    (blocks.foldl sha256Compress hs).length = 8
  | [], _, h => h
  | b :: bs, hs, _ => by
      rw [List.foldl_cons]
      exact foldl_compress_length bs (sha256Compress hs b) (sha256Compress_length hs b)

theorem flatten_map_be32_length :
    ∀ (l : List Nat), ((l.map be32).flatten).length = 4 * l.length
  | [] => rfl
  | x :: t => by
      simp only [List.map_cons, List.flatten_cons, List.length_append,
        flatten_map_be32_length t, List.length_cons]
      rw [show (be32 x).length = 4 from rfl]
      ring

theorem sha256_length (msg : List Nat) : (sha256 msg).length = 32 := by
  unfold sha256
  rw [flatten_map_be32_length, foldl_compress_length _ _ (by rfl)]

theorem hmacSha256_length (key msg : List Nat) : (hmacSha256 key msg).length = 32 := by
  unfold hmacSha256
  exact sha256_length _

theorem hmacSha256_ne_nil (key msg : List Nat) : hmacSha256 key msg ≠ [] := by
  intro h
  have := hmacSha256_length key msg
  rw [h] at this
  simp at this

theorem b64Encode_ne_nil : ∀ (bytes : List Nat), bytes ≠ [] → b64Encode bytes ≠ []
  | [], h => absurd rfl h
  | [_], _ => by simp [b64Encode]
  | [_, _], _ => by simp [b64Encode]
  | _ :: _ :: _ :: _, _ => by simp [b64Encode]

theorem utf8Char_ne_nil (c : Char) : utf8Char c ≠ [] := by
  unfold utf8Char
  dsimp only
  split_ifs <;> simp

theorem utf8EncodeL_ne_nil (l : List Char) (h : l ≠ []) : utf8EncodeL l ≠ [] := by
  cases l with
  | nil => exact absurd rfl h
  | cons c t =>
      unfold utf8EncodeL
      simp only [List.map_cons, List.flatten_cons]
      intro happ
      rcases List.append_eq_nil.mp happ with ⟨h1, _⟩
      exact utf8Char_ne_nil c h1

theorem sigSegment_ne_nil (payload : Claims) (secret : String) :
    SimpleJWT.sigSegment payload secret ≠ [] := by
  rw [SimpleJWT.sigSegment]
  exact b64Encode_ne_nil _ (hmacSha256_ne_nil _ _)

theorem payloadSegment_ne_nil (payload : Claims) :
    SimpleJWT.payloadSegment payload ≠ [] := by
  rw [SimpleJWT.payloadSegment]
  exact b64Encode_ne_nil _ (utf8EncodeL_ne_nil _ (by rw [dumpsObj]; simp))

theorem headerSegment_ne_nil : SimpleJWT.headerSegment ≠ [] := by
  rw [SimpleJWT.headerSegment]
  exact b64Encode_ne_nil _ (utf8EncodeL_ne_nil _ (by rw [dumpsObj]; simp))

/-! ## Tampering with the signature segment -/

theorem set_ne_self {α : Type} [DecidableEq α] (l : List α) (i : Nat) (c : α)
    (hi : i < l.length) (hne : c ≠ l.get ⟨i, hi⟩) : l.set i c ≠ l := by
  intro heq
  have h2 := congrArg (fun t => t[i]?) heq
  simp only [List.getElem?_set_self' ] at h2
  rw [List.getElem?_eq_getElem hi] at h2
  simp only [List.getElem?_eq_getElem hi, Option.map_some] at h2
  exact hne (by simpa using h2)

theorem decode_tampered_signature (payload : Claims) (secret : String) (now : Int)
    (i : Nat) (c' : Char) (hi : i < (SimpleJWT.sigSegment payload secret).length)
    (hne : c' ≠ (SimpleJWT.sigSegment payload secret).get ⟨i, hi⟩) (hdot : c' ≠ '.')
    (hascii : c'.toNat < 128) :
    SimpleJWT.decode (String.mk (SimpleJWT.signedMessage payload ++
      '.' :: ((SimpleJWT.sigSegment payload secret).set i c'))) secret now =
      .error .invalidSignature := by
  unfold SimpleJWT.decode
  rw [show (String.mk (SimpleJWT.signedMessage payload ++
      '.' :: ((SimpleJWT.sigSegment payload secret).set i c'))).data =
    SimpleJWT.signedMessage payload ++
      '.' :: ((SimpleJWT.sigSegment payload secret).set i c') from rfl]
  rw [show SimpleJWT.signedMessage payload ++
      '.' :: ((SimpleJWT.sigSegment payload secret).set i c') =
    SimpleJWT.headerSegment ++ '.' ::
      (SimpleJWT.payloadSegment payload ++
        '.' :: ((SimpleJWT.sigSegment payload secret).set i c'))
    from by rw [SimpleJWT.signedMessage]; simp]
  have hh : '.' ∉ SimpleJWT.headerSegment := by
    rw [SimpleJWT.headerSegment]; exact b64Encode_no_dot _
  have hp : '.' ∉ SimpleJWT.payloadSegment payload := by
    rw [SimpleJWT.payloadSegment]; exact b64Encode_no_dot _
  have hs : '.' ∉ (SimpleJWT.sigSegment payload secret).set i c' := by
    intro hmem
    rcases List.mem_or_eq_of_mem_set hmem with hmem | hmem
    · exact (by rw [SimpleJWT.sigSegment] at hmem; exact b64Encode_no_dot _ hmem)
    · exact hdot hmem.symm
  rw [splitOnDot_three _ _ _ hh hp hs]
  try dsimp only
  rw [show b64Encode (hmacSha256 (utf8EncodeL secret.data)
      (utf8EncodeL (SimpleJWT.headerSegment ++ '.' :: SimpleJWT.payloadSegment payload))) =
    SimpleJWT.sigSegment payload secret
    from by rw [SimpleJWT.sigSegment, SimpleJWT.signedMessage]]
  have hset_ascii : ∀ c ∈ (SimpleJWT.sigSegment payload secret).set i c',
      c.toNat < 128 := by
    intro c hc
    rcases List.mem_or_eq_of_mem_set hc with hmem | hmem
    · exact sigSegment_ascii payload secret c hmem
    · exact hmem ▸ hascii
  rw [compare_digest_ne _ _ hset_ascii (sigSegment_ascii payload secret)
    (set_ne_self _ i c' hi hne)]

set_option maxHeartbeats 1000000 in
/-- Replacing a signature character by a non-ASCII character makes
`compare_digest` raise `TypeError` before any comparison, so decoding
fails with the generic comparison error, not the signature mismatch. -/
theorem decode_tampered_nonascii (payload : Claims) (secret : String) (now : Int)
    (i : Nat) (c' : Char) (hi : i < (SimpleJWT.sigSegment payload secret).length)
    (hdot : c' ≠ '.') (hna : ¬ c'.toNat < 128) :
    SimpleJWT.decode (String.mk (SimpleJWT.signedMessage payload ++
      '.' :: ((SimpleJWT.sigSegment payload secret).set i c'))) secret now =
      .error .nonAsciiCompare := by
  unfold SimpleJWT.decode
  rw [show (String.mk (SimpleJWT.signedMessage payload ++
      '.' :: ((SimpleJWT.sigSegment payload secret).set i c'))).data =
    SimpleJWT.signedMessage payload ++
      '.' :: ((SimpleJWT.sigSegment payload secret).set i c') from rfl]
  rw [show SimpleJWT.signedMessage payload ++
      '.' :: ((SimpleJWT.sigSegment payload secret).set i c') =
    SimpleJWT.headerSegment ++ '.' ::
      (SimpleJWT.payloadSegment payload ++
        '.' :: ((SimpleJWT.sigSegment payload secret).set i c'))
    from by rw [SimpleJWT.signedMessage]; simp]
  have hh : '.' ∉ SimpleJWT.headerSegment := by
    rw [SimpleJWT.headerSegment]; exact b64Encode_no_dot _
  have hp : '.' ∉ SimpleJWT.payloadSegment payload := by
    rw [SimpleJWT.payloadSegment]; exact b64Encode_no_dot _
  have hs : '.' ∉ (SimpleJWT.sigSegment payload secret).set i c' := by
    intro hmem
    rcases List.mem_or_eq_of_mem_set hmem with hmem | hmem
    · exact (by rw [SimpleJWT.sigSegment] at hmem; exact b64Encode_no_dot _ hmem)
    · exact hdot hmem.symm
  rw [splitOnDot_three _ _ _ hh hp hs]
  try dsimp only
  have h2 : i < ((SimpleJWT.sigSegment payload secret).set i c').length := by
    simpa using hi
  have hmem : c' ∈ (SimpleJWT.sigSegment payload secret).set i c' := by
    have h3 := List.getElem_set_self h2
    have h4 := List.getElem_mem h2
    rwa [h3] at h4
  rw [compare_digest_nonascii_left _ _ (fun hall => hna (hall c' hmem))]

/-! ## Status band facts -/

/-- Numeric severity of a status band, for stating monotonicity. -/
def statusRank (s : String) : Nat :=
  if s = "LOW" then 0 else if s = "MEDIUM" then 1 else if s = "HIGH" then 2 else 3

theorem calculateBinStatus_cases (data : WasteBinData) :
    calculateBinStatus data =
      (let m := max data.organic_level (max data.recyclable_level data.hazardous_level)
       if 90 ≤ m then "CRITICAL" else if 80 ≤ m then "HIGH"
       else if 60 ≤ m then "MEDIUM" else "LOW") := rfl

theorem statusRank_le_of_max_le (d1 d2 : WasteBinData)
    (h : max d1.organic_level (max d1.recyclable_level d1.hazardous_level) ≤
         max d2.organic_level (max d2.recyclable_level d2.hazardous_level)) :
    statusRank (calculateBinStatus d1) ≤ statusRank (calculateBinStatus d2) := by
  rw [calculateBinStatus_cases d1, calculateBinStatus_cases d2]
  dsimp only
  split_ifs <;> simp [statusRank] <;> first
    | rfl
    | omega
    | linarith

/-! ## Alert message disequalities -/

theorem ne_of_data_getElem (s t : String) (i : Nat) (h : s.data[i]? ≠ t.data[i]?) :
    s ≠ t :=
  fun he => h (he ▸ rfl)

theorem organicAlert_ne_recyclable (x y : ℚ) :
    organicAlertText x ≠ recyclableAlertText y := by
  apply ne_of_data_getElem _ _ 0
  unfold organicAlertText recyclableAlertText
  simp only [String.data_append]
  rw [List.getElem?_append_left (by simp), List.getElem?_append_left (by decide),
      List.getElem?_append_left (by simp), List.getElem?_append_left (by decide)]
  decide

theorem organicAlert_ne_hazardous (x y : ℚ) :
    organicAlertText x ≠ hazardousAlertText y := by
  apply ne_of_data_getElem _ _ 0
  unfold organicAlertText hazardousAlertText
  simp only [String.data_append]
  rw [List.getElem?_append_left (by simp), List.getElem?_append_left (by decide),
      List.getElem?_append_left (by simp), List.getElem?_append_left (by decide)]
  decide

theorem recyclableAlert_ne_hazardous (x y : ℚ) :
    recyclableAlertText x ≠ hazardousAlertText y := by
  apply ne_of_data_getElem _ _ 0
  unfold recyclableAlertText hazardousAlertText
  simp only [String.data_append]
  rw [List.getElem?_append_left (by simp), List.getElem?_append_left (by decide),
      List.getElem?_append_left (by simp), List.getElem?_append_left (by decide)]
  decide

theorem organicNotify_ne_recyclableNotify (id : String) (x y : ℚ) :
    organicNotifyText id x ≠ recyclableNotifyText id y := by
  intro h
  unfold organicNotifyText recyclableNotifyText at h
  have hd := congrArg String.data h
  simp only [String.data_append, List.append_assoc] at hd
  have hd2 := List.append_cancel_left hd
  have hd3 := List.append_cancel_left hd2
  have hq := congrArg (fun l => l[3]?) hd3
  simp only at hq
  rw [List.getElem?_append_left (by decide), List.getElem?_append_left (by decide)] at hq
  exact absurd hq (by decide)

theorem organicNotify_ne_hazardousNotify (id : String) (x y : ℚ) :
    organicNotifyText id x ≠ hazardousNotifyText id y := by
  apply ne_of_data_getElem _ _ 0
  unfold organicNotifyText hazardousNotifyText
  simp only [String.data_append, List.append_assoc]
  rw [List.getElem?_append_left (by decide), List.getElem?_append_left (by decide)]
  decide

theorem recyclableNotify_ne_hazardousNotify (id : String) (x y : ℚ) :
    recyclableNotifyText id x ≠ hazardousNotifyText id y := by
  apply ne_of_data_getElem _ _ 0
  unfold recyclableNotifyText hazardousNotifyText
  simp only [String.data_append, List.append_assoc]
  rw [List.getElem?_append_left (by decide), List.getElem?_append_left (by decide)]
  decide

/-! ## Store key lemmas -/

theorem dictUpdate_keys {α : Type} (l : List (String × α)) (k : String) (v : α) :
    (dictUpdate l k v).map Prod.fst =
      if k ∈ l.map Prod.fst then l.map Prod.fst else l.map Prod.fst ++ [k] := by
  unfold dictUpdate
  have hiff : (l.any (fun p => p.1 = k) = true) ↔ k ∈ l.map Prod.fst := by
    rw [List.any_eq_true]
    constructor
    · rintro ⟨p, hp, he⟩
      exact List.mem_map.mpr ⟨p, hp, by simpa using he⟩
    · rintro hm
      rcases List.mem_map.mp hm with ⟨p, hp, rfl⟩
      exact ⟨p, hp, by simp⟩
  split_ifs with h1 h2 h2
  · rw [List.map_map]
    apply List.map_congr_left
    intro p hp
    by_cases hpk : p.1 = k
    · simp [hpk]
    · simp [hpk]
  · exact absurd (hiff.mp h1) h2
  · exact absurd (hiff.mpr h2) (by simpa using h1)
  · simp

theorem storeFold_keys :
    ∀ (l : List (WasteBinData × Int)) (db : WasteDatabase),
    ((db.bins.map Prod.fst).Nodup) →
    ((l.foldl (fun db p => (store_bin_data db p.1 p.2).2) db).bins.map Prod.fst).Nodup ∧
    ((l.foldl (fun db p => (store_bin_data db p.1 p.2).2) db).bins.map Prod.fst).toFinset =
      (db.bins.map Prod.fst).toFinset ∪ (l.map (fun p => p.1.bin_id)).toFinset
  | [], db, h => by simp [h]
  | (d, t) :: rest, db, h => by
      rw [List.foldl_cons]
      have hstep := storeFold_keys rest
        ⟨dictUpdate db.bins d.bin_id (binRecordOf d t)⟩
        (dictUpdate_keys_nodup db.bins d.bin_id (binRecordOf d t) h)
      refine ⟨hstep.1, ?_⟩
      try dsimp only [store_bin_data] at hstep
      try dsimp only [store_bin_data]
      rw [hstep.2]
      try dsimp only
      rw [dictUpdate_keys]
      split_ifs with hmem
      · simp only [List.map_cons, List.toFinset_cons]
        rw [Finset.ext_iff]
        intro x
        simp only [Finset.mem_union, List.mem_toFinset, Finset.mem_insert]
        constructor
        · rintro (hx | hx)
          · tauto
          · tauto
        · rintro (hx | rfl | hx)
          · tauto
          · exact Or.inl (by simpa using hmem)
          · tauto
      · simp only [List.toFinset_append, List.map_cons, List.toFinset_cons]
        rw [Finset.ext_iff]
        intro x
        simp only [Finset.mem_union, List.mem_toFinset, List.toFinset_nil,
          Finset.mem_insert, Finset.mem_singleton, List.not_mem_nil, or_false,
          Finset.mem_singleton]
        tauto

theorem countP_dictUpdate {α : Type} (l : List (String × α)) (k : String) (v : α)
    (h : (l.map Prod.fst).Nodup) :
    (dictUpdate l k v).countP (fun p => p.1 = k) = 1 := by
  have hc : ∀ (m : List (String × α)),
      m.countP (fun p => p.1 = k) = (m.map Prod.fst).countP (fun x => x = k) := by
    intro m
    rw [List.countP_map]
    rfl
  rw [hc]
  rw [dictUpdate_keys]
  split_ifs with hmem
  · have hle := List.nodup_iff_count_le_one.mp h k
    have hge : 0 < (l.map Prod.fst).count k := List.count_pos_iff.mpr hmem
    have : (l.map Prod.fst).countP (fun x => x = k) = (l.map Prod.fst).count k := by
      rw [List.count]
      apply List.countP_congr
      intro x _
      by_cases hxk : x = k
      · simp [hxk]
      · simp [hxk]
    omega
  · rw [List.countP_append]
    have h0 : (l.map Prod.fst).countP (fun x => x = k) = 0 := by
      rw [List.countP_eq_zero]
      intro x hx
      simp only [decide_eq_true_eq]
      intro rfl'
      exact hmem (rfl' ▸ hx)
    rw [h0]
    rw [List.countP_cons_of_pos _ _ (by simp), List.countP_nil]

/-! ## Claim theorems -/

/-- C2: for all three fill levels in [0,100], `_calculate_bin_status` returns
CRITICAL exactly when the maximum level is at least 90, HIGH when it lies in
[80,90), MEDIUM in [60,80), LOW below 60; in particular the equal-level
boundary probes give LOW at 59.9, MEDIUM at 60 and 79.9, HIGH at 80 and
89.9, CRITICAL at 90. -/
theorem classify_bands :
    (∀ (id : String) (o r h : ℚ),
      0 ≤ o → o ≤ 100 → 0 ≤ r → r ≤ 100 → 0 ≤ h → h ≤ 100 →
      (calculateBinStatus ⟨id, o, r, h⟩ = "CRITICAL" ↔ 90 ≤ max o (max r h)) ∧
      (calculateBinStatus ⟨id, o, r, h⟩ = "HIGH" ↔
        80 ≤ max o (max r h) ∧ max o (max r h) < 90) ∧
      (calculateBinStatus ⟨id, o, r, h⟩ = "MEDIUM" ↔
        60 ≤ max o (max r h) ∧ max o (max r h) < 80) ∧
      (calculateBinStatus ⟨id, o, r, h⟩ = "LOW" ↔ max o (max r h) < 60)) ∧
    calculateBinStatus ⟨"BIN-001", 59.9, 59.9, 59.9⟩ = "LOW" ∧
    calculateBinStatus ⟨"BIN-001", 60, 60, 60⟩ = "MEDIUM" ∧
    calculateBinStatus ⟨"BIN-001", 79.9, 79.9, 79.9⟩ = "MEDIUM" ∧
    calculateBinStatus ⟨"BIN-001", 80, 80, 80⟩ = "HIGH" ∧
    calculateBinStatus ⟨"BIN-001", 89.9, 89.9, 89.9⟩ = "HIGH" ∧
    calculateBinStatus ⟨"BIN-001", 90, 90, 90⟩ = "CRITICAL" := by
  constructor
  · intro id o r h _ _ _ _ _ _
    rw [calculateBinStatus_cases]
    dsimp only
    split_ifs with h1 h2 h3
    · refine ⟨⟨fun _ => h1, fun _ => rfl⟩, ⟨fun he => absurd he (by decide), ?_⟩,
        ⟨fun he => absurd he (by decide), ?_⟩, ⟨fun he => absurd he (by decide), ?_⟩⟩
      · rintro ⟨_, hlt⟩; linarith
      · rintro ⟨_, hlt⟩; linarith
      · intro hlt; linarith
    · refine ⟨⟨fun he => absurd he (by decide), fun hc => absurd hc h1⟩,
        ⟨fun _ => ⟨h2, not_le.mp h1⟩, fun _ => rfl⟩,
        ⟨fun he => absurd he (by decide), ?_⟩, ⟨fun he => absurd he (by decide), ?_⟩⟩
      · rintro ⟨_, hlt⟩; linarith
      · intro hlt; linarith
    · refine ⟨⟨fun he => absurd he (by decide), fun hc => absurd hc h1⟩,
        ⟨fun he => absurd he (by decide), fun ⟨hge, _⟩ => absurd hge h2⟩,
        ⟨fun _ => ⟨h3, not_le.mp h2⟩, fun _ => rfl⟩,
        ⟨fun he => absurd he (by decide), ?_⟩⟩
      intro hlt; linarith
    · refine ⟨⟨fun he => absurd he (by decide), fun hc => absurd hc h1⟩,
        ⟨fun he => absurd he (by decide), fun ⟨hge, _⟩ => absurd hge h2⟩,
        ⟨fun he => absurd he (by decide), fun ⟨hge, _⟩ => absurd hge h3⟩,
        ⟨fun _ => not_le.mp h3, fun _ => rfl⟩⟩
  refine ⟨by norm_num [calculateBinStatus], by norm_num [calculateBinStatus],
    by norm_num [calculateBinStatus], by norm_num [calculateBinStatus],
    by norm_num [calculateBinStatus], by norm_num [calculateBinStatus]⟩

/-- Witness for C2 at a concrete in-range reading. -/
theorem classify_bands_witness :
    (0:ℚ) ≤ 85 ∧ (85:ℚ) ≤ 100 ∧
    (calculateBinStatus ⟨"BIN-001", 85, 10, 10⟩ = "HIGH" ↔
      80 ≤ max (85:ℚ) (max 10 10) ∧ max (85:ℚ) (max 10 10) < 90) :=
  ⟨by norm_num, by norm_num,
    (classify_bands.1 "BIN-001" 85 10 10 (by norm_num) (by norm_num) (by norm_num)
      (by norm_num) (by norm_num) (by norm_num)).2.1⟩

/-- C8: for levels in [0,100], raising any single level while holding the
other two fixed never lowers the status band of `_calculate_bin_status`,
under the severity order LOW < MEDIUM < HIGH < CRITICAL (`statusRank`). -/
theorem classify_monotone :
    ∀ (id : String) (o r h o' r' h' : ℚ),
      0 ≤ o → o ≤ 100 → 0 ≤ r → r ≤ 100 → 0 ≤ h → h ≤ 100 →
      o' ≤ 100 → r' ≤ 100 → h' ≤ 100 →
      (o ≤ o' → statusRank (calculateBinStatus ⟨id, o, r, h⟩) ≤
        statusRank (calculateBinStatus ⟨id, o', r, h⟩)) ∧
      (r ≤ r' → statusRank (calculateBinStatus ⟨id, o, r, h⟩) ≤
        statusRank (calculateBinStatus ⟨id, o, r', h⟩)) ∧
      (h ≤ h' → statusRank (calculateBinStatus ⟨id, o, r, h⟩) ≤
        statusRank (calculateBinStatus ⟨id, o, r, h'⟩)) := by
  intro id o r h o' r' h' _ _ _ _ _ _ _ _ _
  refine ⟨fun hle => ?_, fun hle => ?_, fun hle => ?_⟩
  · exact statusRank_le_of_max_le _ _
      (by dsimp only; exact max_le_max hle (le_refl _))
  · exact statusRank_le_of_max_le _ _
      (by dsimp only; exact max_le_max (le_refl _) (max_le_max hle (le_refl _)))
  · exact statusRank_le_of_max_le _ _
      (by dsimp only; exact max_le_max (le_refl _) (max_le_max (le_refl _) hle))

/-- Witness for C8 at a concrete pair of readings. -/
theorem classify_monotone_witness :
    (0:ℚ) ≤ 50 ∧ (50:ℚ) ≤ 85 ∧
    statusRank (calculateBinStatus ⟨"BIN-001", 50, 20, 30⟩) ≤
      statusRank (calculateBinStatus ⟨"BIN-001", 85, 20, 30⟩) :=
  ⟨by norm_num, by norm_num,
    (classify_monotone "BIN-001" 50 20 30 85 20 30 (by norm_num) (by norm_num)
      (by norm_num) (by norm_num) (by norm_num) (by norm_num) (by norm_num)
      (by norm_num) (by norm_num)).1 (by norm_num)⟩

theorem mem_ite_singleton {α : Type} (c : Prop) [Decidable c] (x a : α) :
    (a ∈ (if c then [x] else [])) ↔ c ∧ a = x := by
  split_ifs with h <;> simp [h]

/-- C4: `_generate_alerts` stores exactly one message per category whose
level is at least 80, in the order organic, recyclable, hazardous, while
`check_and_notify` emits exactly one message per category whose level
strictly exceeds 80; a category at exactly 80 yields a stored alert but no
outbound notification. -/
theorem alerts_notify_thresholds :
    (∀ (id : String) (o r h : ℚ),
      (generateAlerts ⟨id, o, r, h⟩).length =
        ([o, r, h].countP (fun l => decide (80 ≤ l))) ∧
      (checkAndNotify ⟨id, o, r, h⟩).length =
        ([o, r, h].countP (fun l => decide (80 < l))) ∧
      (organicAlertText o ∈ generateAlerts ⟨id, o, r, h⟩ ↔ 80 ≤ o) ∧
      (recyclableAlertText r ∈ generateAlerts ⟨id, o, r, h⟩ ↔ 80 ≤ r) ∧
      (hazardousAlertText h ∈ generateAlerts ⟨id, o, r, h⟩ ↔ 80 ≤ h) ∧
      (organicNotifyText id o ∈ checkAndNotify ⟨id, o, r, h⟩ ↔ 80 < o) ∧
      (recyclableNotifyText id r ∈ checkAndNotify ⟨id, o, r, h⟩ ↔ 80 < r) ∧
      (hazardousNotifyText id h ∈ checkAndNotify ⟨id, o, r, h⟩ ↔ 80 < h) ∧
      (80 ≤ o → (generateAlerts ⟨id, o, r, h⟩).head? = some (organicAlertText o)) ∧
      (80 ≤ h → (generateAlerts ⟨id, o, r, h⟩).getLast? = some (hazardousAlertText h))) ∧
    (∀ (id : String) (r h : ℚ),
      organicAlertText 80 ∈ generateAlerts ⟨id, 80, r, h⟩ ∧
      organicNotifyText id 80 ∉ checkAndNotify ⟨id, 80, r, h⟩) := by
  constructor
  · intro id o r h
    refine ⟨?_, ?_, ?_, ?_, ?_, ?_, ?_, ?_, ?_, ?_⟩
    · by_cases ho : 80 ≤ o <;> by_cases hr : 80 ≤ r <;> by_cases hh : 80 ≤ h <;>
        simp [generateAlerts, ho, hr, hh]
    · by_cases ho : 80 < o <;> by_cases hr : 80 < r <;> by_cases hh : 80 < h <;>
        simp [checkAndNotify, ho, hr, hh]
    · simp only [generateAlerts, List.mem_append, mem_ite_singleton]
      simp [organicAlert_ne_recyclable o r, organicAlert_ne_hazardous o h]
    · simp only [generateAlerts, List.mem_append, mem_ite_singleton]
      simp [(organicAlert_ne_recyclable o r).symm, recyclableAlert_ne_hazardous r h]
    · simp only [generateAlerts, List.mem_append, mem_ite_singleton]
      simp [(organicAlert_ne_hazardous o h).symm, (recyclableAlert_ne_hazardous r h).symm]
    · simp only [checkAndNotify, List.mem_append, mem_ite_singleton]
      simp [organicNotify_ne_recyclableNotify id o r, organicNotify_ne_hazardousNotify id o h]
    · simp only [checkAndNotify, List.mem_append, mem_ite_singleton]
      simp [(organicNotify_ne_recyclableNotify id o r).symm,
        recyclableNotify_ne_hazardousNotify id r h]
    · simp only [checkAndNotify, List.mem_append, mem_ite_singleton]
      simp [(organicNotify_ne_hazardousNotify id o h).symm,
        (recyclableNotify_ne_hazardousNotify id r h).symm]
    · intro ho
      simp [generateAlerts, ho]
    · intro hh
      by_cases ho : 80 ≤ o <;> by_cases hr : 80 ≤ r <;>
        simp [generateAlerts, ho, hr, hh]
  · intro id r h
    constructor
    · unfold generateAlerts
      apply List.mem_append.mpr
      left
      apply List.mem_append.mpr
      left
      rw [mem_ite_singleton]
      exact ⟨by norm_num, rfl⟩
    · intro hm
      unfold checkAndNotify at hm
      rcases List.mem_append.mp hm with hm | hm
      · rcases List.mem_append.mp hm with hm | hm
        · rw [mem_ite_singleton] at hm
          exact absurd hm.1 (by norm_num)
        · rw [mem_ite_singleton] at hm
          exact absurd hm.2 (organicNotify_ne_recyclableNotify id 80 r)
      · rw [mem_ite_singleton] at hm
        exact absurd hm.2 (organicNotify_ne_hazardousNotify id 80 h)

/-- Witness for C4's boundary implications at a concrete reading. -/
theorem alerts_notify_thresholds_witness :
    (80:ℚ) ≤ 85 ∧
    (generateAlerts ⟨"BIN-001", 85, 10, 20⟩).head? = some (organicAlertText 85) :=
  ⟨by norm_num,
    ((alerts_notify_thresholds.1 "BIN-001" 85 10 20).2.2.2.2.2.2.2.2.1 (by norm_num))⟩

theorem is_allowed_single (i : String) (ts : List ℚ) (limit : Nat) (window now : ℚ) :
    is_allowed ⟨[(i, ts)]⟩ i limit window now =
      (decide ((ts.filter (fun t => now - t < window)).length < limit),
       ⟨[(i, if (ts.filter (fun t => now - t < window)).length < limit
             then ts.filter (fun t => now - t < window) ++ [now]
             else ts.filter (fun t => now - t < window))]⟩) := by
  by_cases h : (ts.filter (fun t => now - t < window)).length < limit
  · simp [is_allowed, pyLookup, dictUpdate, h]
  · simp [is_allowed, pyLookup, dictUpdate, h]

/-- **C3.** `RateLimiter.is_allowed` first prunes every recorded timestamp
`t` with `now - t ≥ window` for the identifier, then allows and records `now`
exactly when the pruned count is strictly below `limit`, denying without
recording otherwise; consequently with `limit = 3` and `window = 60` seconds,
three calls for one identifier within one second are all allowed, a fourth
within that second is denied without recording, and a call after the window
has fully elapsed is allowed again. -/
theorem rate_limiter_semantics :
    (∀ (rl : RateLimiter) (id : String) (limit : Nat) (window now : ℚ),
      ((is_allowed rl id limit window now).1 = true ↔
        (((pyLookup rl.requests id).getD []).filter
          (fun t => now - t < window)).length < limit) ∧
      pyLookup (is_allowed rl id limit window now).2.requests id =
        some (if (((pyLookup rl.requests id).getD []).filter
                (fun t => now - t < window)).length < limit
              then ((pyLookup rl.requests id).getD []).filter
                (fun t => now - t < window) ++ [now]
              else ((pyLookup rl.requests id).getD []).filter
                (fun t => now - t < window)) ∧
      (∀ t ∈ ((pyLookup rl.requests id).getD []).filter
          (fun t => now - t < window), now - t < window)) ∧
    (∀ (id : String) (t1 t2 t3 t4 t5 : ℚ),
      t1 ≤ t2 → t2 ≤ t3 → t3 ≤ t4 → t4 ≤ t1 + 1 → t3 + 60 ≤ t5 →
      is_allowed emptyRateLimiter id 3 60 t1 = (true, ⟨[(id, [t1])]⟩) ∧
      is_allowed ⟨[(id, [t1])]⟩ id 3 60 t2 = (true, ⟨[(id, [t1, t2])]⟩) ∧
      is_allowed ⟨[(id, [t1, t2])]⟩ id 3 60 t3 =
        (true, ⟨[(id, [t1, t2, t3])]⟩) ∧
      is_allowed ⟨[(id, [t1, t2, t3])]⟩ id 3 60 t4 =
        (false, ⟨[(id, [t1, t2, t3])]⟩) ∧
      is_allowed ⟨[(id, [t1, t2, t3])]⟩ id 3 60 t5 = (true, ⟨[(id, [t5])]⟩)) := by
  constructor
  · intro rl id limit window now
    refine ⟨?_, ?_, ?_⟩
    · unfold is_allowed
      dsimp only
      split_ifs with h <;> simp [h]
    · unfold is_allowed
      dsimp only
      split_ifs with h <;> simp [h, pyLookup_dictUpdate]
    · intro t ht
      exact of_decide_eq_true (List.mem_filter.mp ht).2
  · intro id t1 t2 t3 t4 t5 h12 h23 h34 h41 h5
    refine ⟨?_, ?_, ?_, ?_, ?_⟩
    · simp [is_allowed, emptyRateLimiter, pyLookup, dictUpdate]
    · have k : t2 - t1 < 60 := by linarith
      rw [is_allowed_single]
      simp [k]
    · have ka : t3 - t1 < 60 := by linarith
      have kb : t3 - t2 < 60 := by linarith
      rw [is_allowed_single]
      simp [ka, kb]
    · have ka : t4 - t1 < 60 := by linarith
      have kb : t4 - t2 < 60 := by linarith
      have kc : t4 - t3 < 60 := by linarith
      rw [is_allowed_single]
      simp [ka, kb, kc]
    · have ka : ¬ (t5 - t1 < 60) := by linarith
      have kb : ¬ (t5 - t2 < 60) := by linarith
      have kc : ¬ (t5 - t3 < 60) := by linarith
      rw [is_allowed_single]
      simp [ka, kb, kc]

/-- Witness for C3: a concrete run with identifier `"203.0.113.7"`,
three calls at time 0, a fourth still at time 0 (denied), and a fifth at
time 60 (allowed again). -/
theorem rate_limiter_semantics_witness :
    is_allowed emptyRateLimiter "203.0.113.7" 3 60 0 =
      (true, ⟨[("203.0.113.7", [(0 : ℚ)])]⟩) ∧
    is_allowed ⟨[("203.0.113.7", [(0 : ℚ)])]⟩ "203.0.113.7" 3 60 0 =
      (true, ⟨[("203.0.113.7", [(0 : ℚ), 0])]⟩) ∧
    is_allowed ⟨[("203.0.113.7", [(0 : ℚ), 0])]⟩ "203.0.113.7" 3 60 0 =
      (true, ⟨[("203.0.113.7", [(0 : ℚ), 0, 0])]⟩) ∧
    is_allowed ⟨[("203.0.113.7", [(0 : ℚ), 0, 0])]⟩ "203.0.113.7" 3 60 0 =
      (false, ⟨[("203.0.113.7", [(0 : ℚ), 0, 0])]⟩) ∧
    is_allowed ⟨[("203.0.113.7", [(0 : ℚ), 0, 0])]⟩ "203.0.113.7" 3 60 60 =
      (true, ⟨[("203.0.113.7", [(60 : ℚ)])]⟩) :=
  rate_limiter_semantics.2 "203.0.113.7" 0 0 0 0 60
    le_rfl le_rfl le_rfl (by norm_num) (by norm_num)

/-- **C7.** `store_bin_data` replaces the record for a bin identifier
wholesale: storing twice for the same identifier leaves exactly one record
for it, equal to the second reading's derived record; and after folding any
sequence of stores into a fresh database, `get_all_bins` has exactly one
entry per distinct bin identifier ever stored. -/
theorem store_overwrite_semantics :
    (∀ (db : WasteDatabase) (d1 d2 : WasteBinData) (s1 s2 : Int),
      (db.bins.map Prod.fst).Nodup → d1.bin_id = d2.bin_id →
      ((store_bin_data (store_bin_data db d1 s1).2 d2 s2).2).bins.countP
          (fun p => p.1 = d2.bin_id) = 1 ∧
      get_bin_status (store_bin_data (store_bin_data db d1 s1).2 d2 s2).2
          d2.bin_id = some (binRecordOf d2 s2)) ∧
    (∀ (l : List (WasteBinData × Int)),
      (get_all_bins (storeFold l)).length =
        (l.map (fun p => p.1.bin_id)).toFinset.card) := by
  constructor
  · intro db d1 d2 s1 s2 hnd _
    constructor
    · exact countP_dictUpdate _ _ _ (dictUpdate_keys_nodup _ _ _ hnd)
    · exact pyLookup_dictUpdate _ _ _
  · intro l
    obtain ⟨hn, hts⟩ := storeFold_keys l emptyDatabase (by simp [emptyDatabase])
    have hlen : (get_all_bins (storeFold l)).length =
        ((storeFold l).bins.map Prod.fst).length := by
      simp [get_all_bins, storeFold]
    rw [hlen]
    unfold storeFold
    rw [← List.toFinset_card_of_nodup hn, hts]
    simp [emptyDatabase]

/-- Witness for C7: storing twice for bin `"BIN-1"` into a fresh database
leaves a single record for it, equal to the second derived record. -/
theorem store_overwrite_semantics_witness :
    ((store_bin_data (store_bin_data emptyDatabase ⟨"BIN-1", 10, 20, 30⟩ 100).2
        ⟨"BIN-1", 85, 5, 5⟩ 200).2).bins.countP (fun p => p.1 = "BIN-1") = 1 ∧
    get_bin_status (store_bin_data (store_bin_data emptyDatabase
        ⟨"BIN-1", 10, 20, 30⟩ 100).2 ⟨"BIN-1", 85, 5, 5⟩ 200).2 "BIN-1" =
      some (binRecordOf ⟨"BIN-1", 85, 5, 5⟩ 200) :=
  store_overwrite_semantics.1 emptyDatabase ⟨"BIN-1", 10, 20, 30⟩
    ⟨"BIN-1", 85, 5, 5⟩ 100 200 (by simp [emptyDatabase]) rfl

/-- **C1.** Token round-trip: for every claims mapping and every secret,
decoding a freshly issued token (one whose injected absolute expiration is
not yet past) with the same secret succeeds and returns exactly the
original claims augmented with the `exp` field; and `create_access_token`
is exactly such an issuance under `SECRET_KEY`, with expiration
`now + expires_delta` (default 60 minutes). -/
theorem token_roundtrip :
    (∀ (data : Claims) (secret : String) (expire now : Int), now ≤ expire →
      SimpleJWT.decode
          (SimpleJWT.encode (dictUpdate data "exp" (.jint expire)) secret)
          secret now =
        .ok (dictUpdate data "exp" (.jint expire))) ∧
    (∀ (data : Claims) (expires_delta : Option Int) (now : Int),
      create_access_token data expires_delta now =
        SimpleJWT.encode
          (dictUpdate data "exp"
            (.jint (now + expires_delta.getD (ACCESS_TOKEN_EXPIRE_MINUTES * 60))))
          SECRET_KEY) := by
  constructor
  · intro data secret expire now h
    rw [decode_encode, pyLookup_dictUpdate]
    dsimp only
    rw [if_neg (not_lt.mpr h)]
  · intro data expires_delta now
    cases expires_delta <;> rfl

/-- Witness for C1: a concrete claims list with a `sub` claim, issued with
expiration 1000 and checked at time 999, decodes back to the augmented
claims. -/
theorem token_roundtrip_witness :
    SimpleJWT.decode
        (SimpleJWT.encode
          (dictUpdate [("sub", JVal.jstr "user-1")] "exp" (.jint 1000)) "s")
        "s" 999 =
      .ok (dictUpdate [("sub", JVal.jstr "user-1")] "exp" (.jint 1000)) :=
  token_roundtrip.1 [("sub", JVal.jstr "user-1")] "s" 1000 999 (by decide)

/-- **C5 (amended).** Expiry strictness of `SimpleJWT.decode`: for a signed
token carrying an integer `exp` claim, verification at time `now` fails
with the expired error exactly when the expiration is strictly in the past
(`exp < now`); equivalently it decodes successfully exactly when
`now ≤ exp` — a token whose expiration equals the check time still
passes. -/
theorem expiry_strictness_amended :
    ∀ (payload : Claims) (secret : String) (e now : Int),
      pyLookup payload "exp" = some (.jint e) →
      (SimpleJWT.decode (SimpleJWT.encode payload secret) secret now =
        (if e < now then .error .expired else .ok payload)) ∧
      (SimpleJWT.decode (SimpleJWT.encode payload secret) secret now =
        .ok payload ↔ now ≤ e) := by
  intro payload secret e now h
  have h1 : SimpleJWT.decode (SimpleJWT.encode payload secret) secret now =
      (if e < now then .error .expired else .ok payload) := by
    rw [decode_encode, h]
  refine ⟨h1, ?_⟩
  rw [h1]
  split_ifs with hlt
  · simp [not_le.mpr hlt]
  · simp [not_lt.mp hlt]

/-- Witness for the amended C5: a token expiring at 2000 checked at 1500
decodes successfully. -/
theorem expiry_strictness_amended_witness :
    SimpleJWT.decode (SimpleJWT.encode [("exp", JVal.jint 2000)] "k") "k" 1500 =
      .ok [("exp", JVal.jint 2000)] :=
  (expiry_strictness_amended [("exp", JVal.jint 2000)] "k" 2000 1500 rfl).2.mpr
    (by decide)

/-- Counterexample to C5 as stated: the claim says verification fails with
Expired whenever `exp ≤ t`, but a token whose `exp` equals the check time
(`exp = now = 1000`) decodes successfully — the code's comparison is
strict. -/
theorem expiry_strictness_cex :
    SimpleJWT.decode (SimpleJWT.encode [("exp", JVal.jint 1000)] "s") "s" 1000 =
      .ok [("exp", JVal.jint 1000)] ∧ (1000 : Int) ≤ 1000 := by
  refine ⟨?_, le_refl _⟩
  rw [decode_encode]
  rfl

theorem splitOnDot_four (h p q s : List Char)
    (hh : '.' ∉ h) (hp : '.' ∉ p) (hq : '.' ∉ q) (hs : '.' ∉ s) :
    splitOnDot (h ++ '.' :: (p ++ '.' :: (q ++ '.' :: s))) = [h, p, q, s] := by
  rw [splitOnDot_append _ _ hh, splitOnDot_append _ _ hp,
    splitOnDot_append _ _ hq, splitOnDot_no_dot _ hs]

/-- Replacing a signature character by the dot separator makes the token
split into four segments, so `decode` rejects it as malformed rather than
as a signature mismatch. -/
theorem decode_sig_dot (payload : Claims) (secret : String) (now : Int)
    (i : Nat) (hi : i < (SimpleJWT.sigSegment payload secret).length) :
    SimpleJWT.decode (String.mk (SimpleJWT.signedMessage payload ++
      '.' :: ((SimpleJWT.sigSegment payload secret).set i '.'))) secret now =
      .error .invalidFormat := by
  have hset : (SimpleJWT.sigSegment payload secret).set i '.' =
      (SimpleJWT.sigSegment payload secret).take i ++ '.' ::
        (SimpleJWT.sigSegment payload secret).drop (i + 1) := by
    rw [List.set_eq_take_append_cons_drop, if_pos hi]
  unfold SimpleJWT.decode
  rw [show (String.mk (SimpleJWT.signedMessage payload ++
      '.' :: ((SimpleJWT.sigSegment payload secret).set i '.'))).data =
    SimpleJWT.signedMessage payload ++
      '.' :: ((SimpleJWT.sigSegment payload secret).set i '.') from rfl]
  rw [hset]
  rw [show SimpleJWT.signedMessage payload ++
      '.' :: ((SimpleJWT.sigSegment payload secret).take i ++ '.' ::
        (SimpleJWT.sigSegment payload secret).drop (i + 1)) =
    SimpleJWT.headerSegment ++ '.' ::
      (SimpleJWT.payloadSegment payload ++ '.' ::
        ((SimpleJWT.sigSegment payload secret).take i ++ '.' ::
          (SimpleJWT.sigSegment payload secret).drop (i + 1)))
    from by rw [SimpleJWT.signedMessage]; simp]
  have hh : '.' ∉ SimpleJWT.headerSegment := by
    rw [SimpleJWT.headerSegment]; exact b64Encode_no_dot _
  have hp : '.' ∉ SimpleJWT.payloadSegment payload := by
    rw [SimpleJWT.payloadSegment]; exact b64Encode_no_dot _
  have hsig : '.' ∉ SimpleJWT.sigSegment payload secret := by
    rw [SimpleJWT.sigSegment]; exact b64Encode_no_dot _
  have hq : '.' ∉ (SimpleJWT.sigSegment payload secret).take i :=
    fun hm => hsig (List.mem_of_mem_take hm)
  have hs : '.' ∉ (SimpleJWT.sigSegment payload secret).drop (i + 1) :=
    fun hm => hsig (List.mem_of_mem_drop hm)
  rw [splitOnDot_four _ _ _ _ hh hp hq hs]

/-- **C6 (amended).** Tamper evidence: replacing any single character of an
issued token's signature segment by a different character makes decoding
fail, with an error that depends on the replacement — the
signature-mismatch error when the new character is ASCII and not the dot
separator, the malformed-token error when it is a dot (the extra dot
changes the segment count before the comparison is reached), and the
generic comparison error when it is non-ASCII (`hmac.compare_digest`
raises `TypeError` on non-ASCII strings before comparing). -/
theorem tamper_evidence_amended :
    ∀ (payload : Claims) (secret : String) (now : Int) (i : Nat) (c' : Char)
      (hi : i < (SimpleJWT.sigSegment payload secret).length),
      c' ≠ (SimpleJWT.sigSegment payload secret).get ⟨i, hi⟩ →
      SimpleJWT.decode (String.mk (SimpleJWT.signedMessage payload ++
          '.' :: ((SimpleJWT.sigSegment payload secret).set i c'))) secret now =
        (if c' = '.' then .error .invalidFormat
         else if c'.toNat < 128 then .error .invalidSignature
         else .error .nonAsciiCompare) := by
  intro payload secret now i c' hi hne
  split_ifs with hdot hascii
  · subst hdot
    exact decode_sig_dot payload secret now i hi
  · exact decode_tampered_signature payload secret now i c' hi hne hdot hascii
  · exact decode_tampered_nonascii payload secret now i c' hi hdot hascii

/-- Witness for the amended C6: tampering the first signature character of
a concrete token to `'='` (never a base64url output character) yields the
signature-mismatch error. -/
theorem tamper_evidence_amended_witness :
    SimpleJWT.decode (String.mk (SimpleJWT.signedMessage [] ++
        '.' :: ((SimpleJWT.sigSegment [] "s").set 0 '='))) "s" 0 =
      .error .invalidSignature := by
  have h0 : 0 < (SimpleJWT.sigSegment [] "s").length :=
    List.length_pos.mpr (sigSegment_ne_nil [] "s")
  have hmem : (SimpleJWT.sigSegment [] "s").get ⟨0, h0⟩ ∈ b64Alphabet :=
    b64Encode_mem _ _ (List.get_mem _ _ h0)
  have hne : ('=' : Char) ≠ (SimpleJWT.sigSegment [] "s").get ⟨0, h0⟩ :=
    fun h => (b64Alphabet_props _ hmem).2.1 h.symm
  have h := tamper_evidence_amended [] "s" 0 0 '=' h0 hne
  rw [if_neg (by decide), if_pos (by decide)] at h
  exact h

/-- Counterexample to C6 as stated: replacing the first signature character
of a concrete token by `'.'` is a genuine single-character change (the
signature segment never contains a dot and is non-empty), yet decoding
fails with the malformed-token error, not the signature-mismatch error. -/
theorem tamper_evidence_cex :
    ('.' : Char) ∉ SimpleJWT.sigSegment [] "s" ∧
    SimpleJWT.sigSegment [] "s" ≠ [] ∧
    SimpleJWT.decode (String.mk (SimpleJWT.signedMessage [] ++
        '.' :: ((SimpleJWT.sigSegment [] "s").set 0 '.'))) "s" 0 =
      .error .invalidFormat ∧
    SimpleJWT.DecodeError.invalidFormat ≠
      SimpleJWT.DecodeError.invalidSignature := by
  refine ⟨?_, sigSegment_ne_nil [] "s", ?_, by decide⟩
  · intro h
    exact (b64Alphabet_props '.' (b64Encode_mem _ '.' h)).1 rfl
  · exact decode_sig_dot [] "s" 0 0 (List.length_pos.mpr (sigSegment_ne_nil [] "s"))

/-- **C9.** The protected-route admission accepts a token only if decoding
succeeds and the claims carry a non-null `sub`: whenever `verify_jwt`
returns true the decoded claims contain a `sub` claim whose value is not
JSON null; and a correctly signed token without such a claim — expired or
not, in particular unexpired — is rejected: `verify_jwt` is false and the
bearer check answers 403 Forbidden. -/
theorem sub_claim_required :
    (∀ (token : String) (now : Int),
      SecurityBearer.verify_jwt token now = true →
      ∃ payload v, SimpleJWT.decode token SECRET_KEY now = .ok payload ∧
        pyLookup payload "sub" = some v ∧ v ≠ JVal.jnull) ∧
    (∀ (payload : Claims) (now : Int),
      pyLookup payload "sub" = none ∨ pyLookup payload "sub" = some JVal.jnull →
      SecurityBearer.verify_jwt (SimpleJWT.encode payload SECRET_KEY) now =
        false ∧
      SecurityBearer.callCheck "Bearer" (SimpleJWT.encode payload SECRET_KEY)
        now = .forbidden "Invalid token or expired token.") := by
  constructor
  · intro token now hv
    unfold SecurityBearer.verify_jwt at hv
    cases hd : SimpleJWT.decode token SECRET_KEY now with
    | error e => rw [hd] at hv; simp at hv
    | ok p =>
        rw [hd] at hv
        dsimp only at hv
        cases hs : pyLookup p "sub" with
        | none => rw [hs] at hv; simp at hv
        | some v =>
            cases v with
            | jnull => rw [hs] at hv; simp at hv
            | jstr s => exact ⟨p, .jstr s, rfl, hs, by simp⟩
            | jint n => exact ⟨p, .jint n, rfl, hs, by simp⟩
            | jbool b => exact ⟨p, .jbool b, rfl, hs, by simp⟩
  · intro payload now hsub
    have hverify : SecurityBearer.verify_jwt
        (SimpleJWT.encode payload SECRET_KEY) now = false := by
      unfold SecurityBearer.verify_jwt
      rw [decode_encode]
      cases hpe : pyLookup payload "exp" with
      | none =>
          dsimp only
          rcases hsub with h | h <;> rw [h]
      | some v =>
          cases v with
          | jint e =>
              dsimp only
              split_ifs <;>
                first
                  | rfl
                  | (dsimp only; rcases hsub with h | h <;> rw [h])
          | jbool b =>
              dsimp only
              split_ifs <;>
                first
                  | rfl
                  | (dsimp only; rcases hsub with h | h <;> rw [h])
          | jstr s => rfl
          | jnull => rfl
    refine ⟨hverify, ?_⟩
    unfold SecurityBearer.callCheck
    rw [if_neg (by simp), if_pos (by simp [hverify])]

/-- Witness for C9: a freshly signed, unexpired token with no `sub` claim
is rejected by `verify_jwt` and by the bearer check. -/
theorem sub_claim_required_witness :
    SecurityBearer.verify_jwt
        (SimpleJWT.encode [("exp", JVal.jint 99)] SECRET_KEY) 0 = false ∧
    SecurityBearer.callCheck "Bearer"
        (SimpleJWT.encode [("exp", JVal.jint 99)] SECRET_KEY) 0 =
      .forbidden "Invalid token or expired token." :=
  sub_claim_required.2 [("exp", JVal.jint 99)] 0 (Or.inl rfl)

/-- **C10.** Token issuance is total and shape-correct: `SimpleJWT.encode`
is a total function whose result always splits on dots into exactly the
three segments header, payload and signature, each non-empty and drawn
from the base64url alphabet, with no padding character anywhere; in
particular the issued token is never the empty string (the code's
empty-string fallback for serialization failure is unreachable for
serializable claims). -/
theorem encode_shape :
    ∀ (payload : Claims) (secret : String),
      splitOnDot (SimpleJWT.encode payload secret).data =
        [SimpleJWT.headerSegment, SimpleJWT.payloadSegment payload,
         SimpleJWT.sigSegment payload secret] ∧
      SimpleJWT.headerSegment ≠ [] ∧
      SimpleJWT.payloadSegment payload ≠ [] ∧
      SimpleJWT.sigSegment payload secret ≠ [] ∧
      (∀ c ∈ SimpleJWT.headerSegment, c ∈ b64Alphabet) ∧
      (∀ c ∈ SimpleJWT.payloadSegment payload, c ∈ b64Alphabet) ∧
      (∀ c ∈ SimpleJWT.sigSegment payload secret, c ∈ b64Alphabet) ∧
      ('=' : Char) ∉ (SimpleJWT.encode payload secret).data ∧
      SimpleJWT.encode payload secret ≠ "" := by
  intro payload secret
  have hh : '.' ∉ SimpleJWT.headerSegment := by
    rw [SimpleJWT.headerSegment]; exact b64Encode_no_dot _
  have hp : '.' ∉ SimpleJWT.payloadSegment payload := by
    rw [SimpleJWT.payloadSegment]; exact b64Encode_no_dot _
  have hs : '.' ∉ SimpleJWT.sigSegment payload secret := by
    rw [SimpleJWT.sigSegment]; exact b64Encode_no_dot _
  have hmemh : ∀ c ∈ SimpleJWT.headerSegment, c ∈ b64Alphabet := by
    rw [SimpleJWT.headerSegment]; exact b64Encode_mem _
  have hmemp : ∀ c ∈ SimpleJWT.payloadSegment payload, c ∈ b64Alphabet := by
    rw [SimpleJWT.payloadSegment]; exact b64Encode_mem _
  have hmems : ∀ c ∈ SimpleJWT.sigSegment payload secret, c ∈ b64Alphabet := by
    rw [SimpleJWT.sigSegment]; exact b64Encode_mem _
  have hdata : (SimpleJWT.encode payload secret).data =
      SimpleJWT.headerSegment ++ '.' ::
        (SimpleJWT.payloadSegment payload ++ '.' ::
          SimpleJWT.sigSegment payload secret) := by
    rw [show (SimpleJWT.encode payload secret).data =
      SimpleJWT.signedMessage payload ++
        '.' :: SimpleJWT.sigSegment payload secret from rfl]
    rw [SimpleJWT.signedMessage]
    simp
  refine ⟨?_, headerSegment_ne_nil, payloadSegment_ne_nil payload,
    sigSegment_ne_nil payload secret, hmemh, hmemp, hmems, ?_, ?_⟩
  · rw [hdata]
    exact splitOnDot_three _ _ _ hh hp hs
  · rw [hdata]
    intro hmem
    rcases List.mem_append.mp hmem with h1 | h1
    · exact (b64Alphabet_props _ (hmemh _ h1)).2.1 rfl
    · rcases List.mem_cons.mp h1 with h2 | h2
      · exact absurd h2 (by decide)
      · rcases List.mem_append.mp h2 with h3 | h3
        · exact (b64Alphabet_props _ (hmemp _ h3)).2.1 rfl
        · rcases List.mem_cons.mp h3 with h4 | h4
          · exact absurd h4 (by decide)
          · exact (b64Alphabet_props _ (hmems _ h4)).2.1 rfl
  · intro he
    have hnil : (SimpleJWT.encode payload secret).data = [] := by rw [he]
    rw [hdata] at hnil
    simp at hnil
